import Mathlib

/-!
Shallow embedding of the Truncate core board engine
(`src/truncate_core/src/board.rs` together with `src/truncate_core/src/rules.rs`),
with proofs about its operations.

Rust `Vec` becomes `List`, machine `usize` becomes `Nat` (Rust uses
`usize::saturating_sub`, which is exactly `Nat` subtraction), fallible
operations return `Except`, and `&mut self` methods are modelled by
explicit state passing: each mutating operation returns the updated board
next to its result.  Rust loops that can diverge are modelled with a fuel
parameter, `none` marking a computation that never finishes on its own.
-/

namespace Truncate

/-- The eight compass directions of `board.rs`. -/
inductive Direction where
  | NorthWest
  | North
  | NorthEast
  | East
  | SouthEast
  | South
  | SouthWest
  | West
deriving DecidableEq, Repr

/-- Whether vertical words are read from top to bottom for a player seated
on this side of the board (`Direction::read_top_to_bottom`). -/
def Direction.read_top_to_bottom : Direction → Bool
  | .South => true
  | .West => true
  | _ => false

/-- Whether horizontal words are read from left to right for a player seated
on this side of the board (`Direction::read_left_to_right`). -/
def Direction.read_left_to_right : Direction → Bool
  | .South => true
  | .East => true
  | _ => false

/-- `Direction::opposite`. -/
def Direction.opposite : Direction → Direction
  | .NorthWest => .SouthEast
  | .North => .South
  | .NorthEast => .SouthWest
  | .East => .West
  | .SouthEast => .NorthWest
  | .South => .North
  | .SouthWest => .NorthEast
  | .West => .East

/-- Unsigned grid coordinate (`Coordinate` in `board.rs`). -/
structure Coordinate where
  x : Nat
  y : Nat
deriving DecidableEq, Repr

/-- `Coordinate::add`: one step in a direction; decrements saturate at zero
exactly like `usize::saturating_sub` (`Nat` subtraction). -/
def Coordinate.add (c : Coordinate) (direction : Direction) : Coordinate :=
  { x :=
      match direction with
      | .West | .NorthWest | .SouthWest => c.x - 1
      | .East | .NorthEast | .SouthEast => c.x + 1
      | .North | .South => c.x
    y :=
      match direction with
      | .North | .NorthEast | .NorthWest => c.y - 1
      | .South | .SouthEast | .SouthWest => c.y + 1
      | .East | .West => c.y }

/-- `Coordinate::neighbors_4`: horizontal and vertical neighbours, from
north clockwise. -/
def Coordinate.neighbors_4 (c : Coordinate) : List Coordinate :=
  [c.add .North, c.add .East, c.add .South, c.add .West]

/-- A playable square: empty, or occupied by a player with a letter
(`Square` in `board.rs`).  A *void* cell of the grid is `none` at the
`Option Square` layer, exactly as in the Rust `Vec<Vec<Option<Square>>>`. -/
inductive Square where
  | Empty
  | Occupied (player : Nat) (tile : Char)
deriving DecidableEq, Repr

/-- The board: grid of optional squares, per-player roots and
per-player orientations (`Board` in `board.rs`). -/
structure Board where
  squares : List (List (Option Square))
  roots : List Coordinate
  orientations : List Direction
deriving DecidableEq, Repr

/-- Modelled from the spec (§7): the error enum of the core
(`error.rs` is not under `src/`); the variants and their payloads are the
ones `board.rs` constructs and the spec's error table lists. -/
inductive GamePlayError where
  | OutSideBoardDimensions (position : Coordinate)
  | InvalidPosition (position : Coordinate)
  | NonExistentPlayer (index : Nat)
  | SelfSwap
  | DisjointSwap
  | UnoccupiedSwap
  | UnownedSwap
  | NoSwapping
  | EmptySquareInWord
deriving DecidableEq, Repr

/-- Modelled from the spec (§3, §6): the change/event value objects of the
reporting module (not under `src/`): a resulting cell detail... -/
structure BoardChangeDetail where
  square : Square
  coordinate : Coordinate
deriving DecidableEq, Repr

/-- Modelled from the spec (§3): the action tags of a board change event. -/
inductive BoardChangeAction where
  | Added
  | Swapped
  | Defeated
  | Truncated
deriving DecidableEq, Repr

/-- Modelled from the spec (§3): a board change event. -/
structure BoardChange where
  detail : BoardChangeDetail
  action : BoardChangeAction
deriving DecidableEq, Repr

/-- Modelled from the spec (§6): a change event as broadcast to
collaborators; `board.rs` only ever constructs the board variant. -/
inductive Change where
  | Board (change : BoardChange)
deriving DecidableEq, Repr

/-- Modelled from the spec (§6): the external tile-supply collaborator
(`bag.rs` is not under `src/`).  Only its interface matters to the board:
`return_tile(letter)` is invoked during truncation for every reclaimed
letter, so the model records the returned letters in call order. -/
structure TileBag where
  returned : List Char
deriving DecidableEq, Repr

/-- `TileBag::return_tile`, modelled as recording the letter. -/
def TileBag.return_tile (bag : TileBag) (letter : Char) : TileBag :=
  { returned := bag.returned ++ [letter] }

/-- `rules::SwapPenalty`. -/
structure SwapPenalty where
  swap_threshold : Nat
  penalties : List Nat
deriving DecidableEq, Repr

/-- `rules::Swapping`: the swap policy. -/
inductive Swapping where
  | Contiguous (penalty : SwapPenalty)
  | Universal (penalty : SwapPenalty)
  | None
deriving DecidableEq, Repr

instance instDecEqExcept {ε α : Type} [DecidableEq ε] [DecidableEq α] :
    DecidableEq (Except ε α) := fun x y =>
  match x, y with
  | .ok a, .ok b =>
    if h : a = b then .isTrue (by rw [h]) else .isFalse (fun hc => h (by injection hc))
  | .error a, .error b =>
    if h : a = b then .isTrue (by rw [h]) else .isFalse (fun hc => h (by injection hc))
  | .ok _, .error _ => .isFalse (fun hc => Except.noConfusion hc)
  | .error _, .ok _ => .isFalse (fun hc => Except.noConfusion hc)

/-- `Board::width`: length of row zero (`self.squares[0].len()`). -/
def Board.width (b : Board) : Nat :=
  (b.squares.headD []).length

/-- `Board::height`: number of rows. -/
def Board.height (b : Board) : Nat :=
  b.squares.length

/-- `Board::get`: the square at a position, `OutSideBoardDimensions` beyond
the grid extent, `InvalidPosition` on a void cell. -/
def Board.get (b : Board) (position : Coordinate) : Except GamePlayError Square :=
  match b.squares[position.y]? with
  | some row =>
    match row[position.x]? with
    | some (some square) => .ok square
    | some none => .error (.InvalidPosition position)
    | none => .error (.OutSideBoardDimensions position)
  | none => .error (.OutSideBoardDimensions position)

/-- `Board::set`: writes an occupied cell; checks the player index first,
then the position (same classification as `get`).  The possibly-updated
board is returned next to the result. -/
def Board.set (b : Board) (position : Coordinate) (player : Nat) (value : Char) :
    Except GamePlayError BoardChangeDetail × Board :=
  match b.roots[player]? with
  | none => (.error (.NonExistentPlayer player), b)
  | some _ =>
    match b.squares[position.y]? with
    | some row =>
      match row[position.x]? with
      | some (some _) =>
        (.ok { square := .Occupied player value, coordinate := position },
          { b with squares := b.squares.set position.y (row.set position.x (some (.Occupied player value))) })
      | some none => (.error (.InvalidPosition position), b)
      | none => (.error (.OutSideBoardDimensions position), b)
    | none => (.error (.OutSideBoardDimensions position), b)

/-- `Board::clear`: empties an occupied cell in place returning its prior
detail; does nothing (returns `none`) for void, empty or out-of-range
cells. -/
def Board.clear (b : Board) (position : Coordinate) : Option BoardChangeDetail × Board :=
  match b.squares[position.y]? with
  | some row =>
    match row[position.x]? with
    | some (some square) =>
      match square with
      | .Occupied _ _ =>
        (some { square := square, coordinate := position },
          { b with squares := b.squares.set position.y (row.set position.x (some .Empty)) })
      | .Empty => (none, b)
    | _ => (none, b)
  | none => (none, b)

/-- `Board::neighbouring_squares`: the valid 4-neighbours with their
squares, in `neighbors_4` order. -/
def Board.neighbouring_squares (b : Board) (position : Coordinate) : List (Coordinate × Square) :=
  position.neighbors_4.filterMap (fun pos =>
    match b.get pos with
    | .ok square => some (pos, square)
    | .error _ => none)

/-- Row-major coordinates of a `w × h` grid: all `(x, y)` with `x < w` and
`y < h`, rows listed in increasing `y` — the iteration order of the
`(0..rows).flat_map(|y| (0..cols) ...)` loops in `board.rs`. -/
def prodCoords (w : Nat) : Nat → List Coordinate
  | 0 => []
  | h + 1 => prodCoords w h ++ (List.range w).map (fun x => ⟨x, h⟩)

lemma mem_prodCoords {w h : Nat} {c : Coordinate} :
    c ∈ prodCoords w h ↔ c.x < w ∧ c.y < h := by
  induction h with
  | zero => simp [prodCoords]
  | succ h ih =>
    simp only [prodCoords, List.mem_append, ih, List.mem_map, List.mem_range]
    constructor
    · rintro (⟨hx, hy⟩ | ⟨x, hx, rfl⟩)
      · exact ⟨hx, Nat.lt_succ_of_lt hy⟩
      · exact ⟨hx, Nat.lt_succ_self h⟩
    · rintro ⟨hx, hy⟩
      rcases Nat.lt_succ_iff_lt_or_eq.mp hy with hy' | hy'
      · exact Or.inl ⟨hx, hy'⟩
      · exact Or.inr ⟨c.x, hx, by cases c; simp_all⟩

lemma nodup_prodCoords (w h : Nat) : (prodCoords w h).Nodup := by
  induction h with
  | zero => simp [prodCoords]
  | succ h ih =>
    refine List.Nodup.append ih ?_ ?_
    · exact List.Nodup.map (fun a b hab => by simpa using hab) (List.nodup_range w)
    · intro a ha hb
      simp only [List.mem_map, List.mem_range] at hb
      obtain ⟨x, _, rfl⟩ := hb
      exact Nat.lt_irrefl h (mem_prodCoords.mp ha).2

/-- All in-range coordinates of the board, row-major. -/
def allCoords (b : Board) : List Coordinate :=
  prodCoords b.width b.height

lemma mem_allCoords {b : Board} {c : Coordinate} :
    c ∈ allCoords b ↔ c.x < b.width ∧ c.y < b.height :=
  mem_prodCoords

lemma nodup_allCoords (b : Board) : (allCoords b).Nodup :=
  nodup_prodCoords _ _

/-- Length of the longest row; used only as a termination measure for the
flood-fill. -/
def boardMaxRow (b : Board) : Nat :=
  b.squares.foldr (fun row m => max row.length m) 0

lemma le_foldr_max (l : List (List (Option Square))) (row : List (Option Square))
    (h : row ∈ l) : row.length ≤ l.foldr (fun r m => max r.length m) 0 := by
  induction l with
  | nil => cases h
  | cons a t ih =>
    rcases List.mem_cons.mp h with rfl | h
    · exact Nat.le_max_left _ _
    · exact Nat.le_trans (ih h) (Nat.le_max_right _ _)

lemma le_boardMaxRow {b : Board} {row : List (Option Square)} (h : row ∈ b.squares) :
    row.length ≤ boardMaxRow b :=
  le_foldr_max b.squares row h

/-- A superset of every coordinate `get` can succeed on; used only as a
termination measure for the flood-fill. -/
def allCoordsStar (b : Board) : List Coordinate :=
  prodCoords (boardMaxRow b) b.height

lemma get_eq_ok_iff {b : Board} {c : Coordinate} {sq : Square} :
    b.get c = .ok sq ↔ ∃ row, b.squares[c.y]? = some row ∧ row[c.x]? = some (some sq) := by
  constructor
  · intro h
    unfold Board.get at h
    split at h
    next row hy =>
      split at h
      next sq0 hx =>
        obtain rfl : sq0 = sq := by injection h
        exact ⟨row, hy, hx⟩
      next hx => exact absurd h (by simp)
      next hx => exact absurd h (by simp)
    next hy => exact absurd h (by simp)
  · rintro ⟨row, hy, hx⟩
    simp [Board.get, hy, hx]

lemma get_ok_lt {b : Board} {c : Coordinate} {sq : Square} (h : b.get c = .ok sq) :
    ∃ row, b.squares[c.y]? = some row ∧ row[c.x]? = some (some sq) :=
  get_eq_ok_iff.mp h

lemma getq_lt_length {α : Type} {l : List α} {n : Nat} {a : α} (h : l[n]? = some a) :
    n < l.length := by
  by_contra hn
  rw [List.getElem?_eq_none_iff.mpr (Nat.le_of_not_lt hn)] at h
  cases h

lemma get_ok_mem_allCoordsStar {b : Board} {c : Coordinate} {sq : Square}
    (h : b.get c = .ok sq) : c ∈ allCoordsStar b := by
  obtain ⟨row, hy, hx⟩ := get_ok_lt h
  refine mem_prodCoords.mpr ⟨?_, getq_lt_length hy⟩
  exact Nat.lt_of_lt_of_le (getq_lt_length hx) (le_boardMaxRow (List.getElem?_mem hy))

lemma length_filter_notMem_le (t : List Coordinate) (v : List Coordinate) (c : Coordinate) :
    (t.filter (fun a => decide (a ∉ c :: v))).length ≤
      (t.filter (fun a => decide (a ∉ v))).length := by
  refine List.Sublist.length_le (List.monotone_filter_right t ?_)
  intro a ha
  simp only [decide_eq_true_eq, List.mem_cons, not_or] at ha ⊢
  exact ha.2

lemma length_filter_notMem_cons_lt (l v : List Coordinate) (c : Coordinate)
    (hc : c ∈ l) (hv : c ∉ v) :
    (l.filter (fun a => decide (a ∉ c :: v))).length <
      (l.filter (fun a => decide (a ∉ v))).length := by
  induction l with
  | nil => cases hc
  | cons a t ih =>
    by_cases hac : a = c
    · subst hac
      have h1 : (decide (a ∉ a :: v)) = false := by simp
      have h2 : (decide (a ∉ v)) = true := by simpa using hv
      simp only [List.filter_cons, h1, h2, if_false, if_true]
      exact Nat.lt_succ_of_le (length_filter_notMem_le t v a)
    · have hct : c ∈ t := by
        rcases List.mem_cons.mp hc with h | h
        · exact absurd h.symm hac
        · exact h
      have hsame : (decide (a ∉ c :: v)) = (decide (a ∉ v)) := by
        by_cases hav : a ∈ v
        · simp [hav]
        · simp [hav, hac]
      simp only [List.filter_cons, hsame]
      by_cases hav : (decide (a ∉ v)) = true
      · simp only [hav, if_true, List.length_cons]
        exact Nat.succ_lt_succ (ih hct)
      · simp only [Bool.not_eq_true] at hav
        simp only [hav, Bool.false_eq_true, if_false]
        exact ih hct

/-- Worklist formulation of the recursive flood-fill `dfs` helper inside
`Board::depth_first_search`: pops a coordinate, and when it is an
unvisited cell occupied by the group's player, records it and queues its
4-neighbours.  It computes the same visited set as the Rust recursion
(which filters neighbours before recursing rather than when popping). -/
def dfsAux (b : Board) (p : Nat) (visited todo : List Coordinate) : List Coordinate :=
  match todo with
  | [] => visited
  | c :: rest =>
    if hv : c ∈ visited then dfsAux b p visited rest
    else
      match hget : b.get c with
      | .ok (.Occupied q _) =>
        if q = p then dfsAux b p (c :: visited) (c.neighbors_4 ++ rest)
        else dfsAux b p visited rest
      | .ok .Empty => dfsAux b p visited rest
      | .error _ => dfsAux b p visited rest
termination_by (((allCoordsStar b).filter (fun a => decide (a ∉ visited))).length, todo.length)
decreasing_by
  · exact Prod.Lex.right _ (by simp)
  · exact Prod.Lex.left _ _
      (length_filter_notMem_cons_lt _ _ _ (get_ok_mem_allCoordsStar hget) hv)
  · exact Prod.Lex.right _ (by simp)
  · exact Prod.Lex.right _ (by simp)
  · exact Prod.Lex.right _ (by simp)

/-- `Board::depth_first_search`: the contiguous same-player group
containing `position` (empty when `position` is not occupied). -/
def Board.depth_first_search (b : Board) (position : Coordinate) : List Coordinate :=
  match b.get position with
  | .ok (.Occupied player _) => dfsAux b player [] [position]
  | _ => []

lemma dfsAux_nil (b : Board) (p : Nat) (visited : List Coordinate) :
    dfsAux b p visited [] = visited := by
  rw [dfsAux]

lemma dfsAux_cons_mem {b : Board} {p : Nat} {visited : List Coordinate} {c : Coordinate}
    {rest : List Coordinate} (h : c ∈ visited) :
    dfsAux b p visited (c :: rest) = dfsAux b p visited rest := by
  rw [dfsAux]
  simp [h]

lemma dfsAux_cons_expand {b : Board} {p : Nat} {visited : List Coordinate} {c : Coordinate}
    {rest : List Coordinate} {ch : Char} (h : c ∉ visited)
    (hget : b.get c = .ok (.Occupied p ch)) :
    dfsAux b p visited (c :: rest) = dfsAux b p (c :: visited) (c.neighbors_4 ++ rest) := by
  rw [dfsAux, dif_neg h]
  split
  next q tile heq =>
    rw [hget] at heq
    injection heq with h1
    injection h1 with h2 h3
    simp [h2]
  next heq => rw [hget] at heq; cases heq
  next e heq => rw [hget] at heq; cases heq

lemma dfsAux_cons_skip {b : Board} {p : Nat} {visited : List Coordinate} {c : Coordinate}
    {rest : List Coordinate} (h : c ∉ visited)
    (hno : ∀ ch, b.get c ≠ .ok (.Occupied p ch)) :
    dfsAux b p visited (c :: rest) = dfsAux b p visited rest := by
  rw [dfsAux, dif_neg h]
  split
  next q tile heq =>
    have hq : q ≠ p := fun hqp => hno tile (by rw [heq, hqp])
    simp [hq]
  next heq => rfl
  next e heq => rfl

/-- The cell at `c` is occupied by player `p`. -/
def occAt (b : Board) (c : Coordinate) (p : Nat) : Prop :=
  ∃ ch, b.get c = .ok (.Occupied p ch)

/-- Same-player 4-connectivity: `c` is joined to `start` by a chain of
4-adjacent cells all occupied by player `p`.  This is the specification
predicate the flood-fill is proved sound and complete for. -/
inductive Reaches (b : Board) (p : Nat) (start : Coordinate) : Coordinate → Prop
  | refl (h : occAt b start p) : Reaches b p start start
  | step (c d : Coordinate) (hr : Reaches b p start c) (hd : d ∈ c.neighbors_4)
      (ho : occAt b d p) : Reaches b p start d

lemma dfsAux_subset (b : Board) (p : Nat) (visited todo : List Coordinate) :
    visited ⊆ dfsAux b p visited todo := by
  induction visited, todo using dfsAux.induct b p with
  | case1 visited => rw [dfsAux_nil]; exact fun a ha => ha
  | case2 visited c rest h ih => rw [dfsAux_cons_mem h]; exact ih
  | case3 visited c rest h ch hget ih =>
    rw [dfsAux_cons_expand h hget]
    exact fun a ha => ih (List.mem_cons_of_mem c ha)
  | case4 visited c rest h q ch hget hq ih =>
    rw [dfsAux_cons_skip h (fun ch0 hc => by rw [hget] at hc; exact hq (Square.Occupied.inj (Except.ok.inj hc)).1)]
    exact ih
  | case5 visited c rest h hget ih =>
    rw [dfsAux_cons_skip h (fun ch0 hc => by rw [hget] at hc; exact absurd hc (by simp))]
    exact ih
  | case6 visited c rest h e hget ih =>
    rw [dfsAux_cons_skip h (fun ch0 hc => by rw [hget] at hc; exact absurd hc (by simp))]
    exact ih

lemma dfsAux_sound (b : Board) (p : Nat) (R : Coordinate → Prop)
    (hstep : ∀ c d, R c → d ∈ c.neighbors_4 → occAt b d p → R d)
    (visited todo : List Coordinate) :
    (∀ v ∈ visited, R v) → (∀ t ∈ todo, occAt b t p → R t) →
      ∀ x ∈ dfsAux b p visited todo, R x := by
  induction visited, todo using dfsAux.induct b p with
  | case1 visited =>
    intro hv _ x hx
    rw [dfsAux_nil] at hx
    exact hv x hx
  | case2 visited c rest h ih =>
    intro hv ht x hx
    rw [dfsAux_cons_mem h] at hx
    exact ih hv (fun t htm => ht t (List.mem_cons_of_mem c htm)) x hx
  | case3 visited c rest h ch hget ih =>
    intro hv ht x hx
    rw [dfsAux_cons_expand h hget] at hx
    have hRc : R c := ht c (List.mem_cons_self c rest) ⟨ch, hget⟩
    refine ih ?_ ?_ x hx
    · intro v hvm
      rcases List.mem_cons.mp hvm with rfl | hvm
      · exact hRc
      · exact hv v hvm
    · intro t htm hocc
      rcases List.mem_append.mp htm with htm | htm
      · exact hstep c t hRc htm hocc
      · exact ht t (List.mem_cons_of_mem c htm) hocc
  | case4 visited c rest h q ch hget hq ih =>
    intro hv ht x hx
    rw [dfsAux_cons_skip h (fun ch0 hc => by rw [hget] at hc; exact hq (Square.Occupied.inj (Except.ok.inj hc)).1)] at hx
    exact ih hv (fun t htm => ht t (List.mem_cons_of_mem c htm)) x hx
  | case5 visited c rest h hget ih =>
    intro hv ht x hx
    rw [dfsAux_cons_skip h (fun ch0 hc => by rw [hget] at hc; exact absurd hc (by simp))] at hx
    exact ih hv (fun t htm => ht t (List.mem_cons_of_mem c htm)) x hx
  | case6 visited c rest h e hget ih =>
    intro hv ht x hx
    rw [dfsAux_cons_skip h (fun ch0 hc => by rw [hget] at hc; exact absurd hc (by simp))] at hx
    exact ih hv (fun t htm => ht t (List.mem_cons_of_mem c htm)) x hx

lemma dfsAux_todo_mem (b : Board) (p : Nat) (visited todo : List Coordinate) :
    ∀ t ∈ todo, occAt b t p → t ∈ dfsAux b p visited todo := by
  induction visited, todo using dfsAux.induct b p with
  | case1 visited => intro t ht; cases ht
  | case2 visited c rest h ih =>
    intro t ht hocc
    rw [dfsAux_cons_mem h]
    rcases List.mem_cons.mp ht with rfl | ht
    · exact dfsAux_subset b p visited rest h
    · exact ih t ht hocc
  | case3 visited c rest h ch hget ih =>
    intro t ht hocc
    rw [dfsAux_cons_expand h hget]
    rcases List.mem_cons.mp ht with rfl | ht
    · exact dfsAux_subset b p _ _ (List.mem_cons_self t visited)
    · exact ih t (List.mem_append_right _ ht) hocc
  | case4 visited c rest h q ch hget hq ih =>
    intro t ht hocc
    rw [dfsAux_cons_skip h (fun ch0 hc => by rw [hget] at hc; exact hq (Square.Occupied.inj (Except.ok.inj hc)).1)]
    rcases List.mem_cons.mp ht with rfl | ht
    · obtain ⟨ch0, hc⟩ := hocc
      rw [hget] at hc
      exact absurd (Square.Occupied.inj (Except.ok.inj hc)).1 hq
    · exact ih t ht hocc
  | case5 visited c rest h hget ih =>
    intro t ht hocc
    rw [dfsAux_cons_skip h (fun ch0 hc => by rw [hget] at hc; exact absurd hc (by simp))]
    rcases List.mem_cons.mp ht with rfl | ht
    · obtain ⟨ch0, hc⟩ := hocc
      rw [hget] at hc
      exact absurd hc (by simp)
    · exact ih t ht hocc
  | case6 visited c rest h e hget ih =>
    intro t ht hocc
    rw [dfsAux_cons_skip h (fun ch0 hc => by rw [hget] at hc; exact absurd hc (by simp))]
    rcases List.mem_cons.mp ht with rfl | ht
    · obtain ⟨ch0, hc⟩ := hocc
      rw [hget] at hc
      exact absurd hc (by simp)
    · exact ih t ht hocc

lemma dfsAux_closed (b : Board) (p : Nat) (visited todo : List Coordinate) :
    (∀ v ∈ visited, ∀ d ∈ v.neighbors_4, occAt b d p → d ∈ visited ∨ d ∈ todo) →
      ∀ v ∈ dfsAux b p visited todo, ∀ d ∈ v.neighbors_4, occAt b d p →
        d ∈ dfsAux b p visited todo := by
  induction visited, todo using dfsAux.induct b p with
  | case1 visited =>
    intro hinv v hv d hd hocc
    rw [dfsAux_nil] at hv ⊢
    rcases hinv v hv d hd hocc with h | h
    · exact h
    · cases h
  | case2 visited c rest h ih =>
    intro hinv
    rw [dfsAux_cons_mem h]
    refine ih ?_
    intro v hv d hd hocc
    rcases hinv v hv d hd hocc with hin | hin
    · exact Or.inl hin
    · rcases List.mem_cons.mp hin with rfl | hin
      · exact Or.inl h
      · exact Or.inr hin
  | case3 visited c rest h ch hget ih =>
    intro hinv
    rw [dfsAux_cons_expand h hget]
    refine ih ?_
    intro v hv d hd hocc
    rcases List.mem_cons.mp hv with rfl | hv
    · exact Or.inr (List.mem_append_left _ hd)
    · rcases hinv v hv d hd hocc with hin | hin
      · exact Or.inl (List.mem_cons_of_mem c hin)
      · rcases List.mem_cons.mp hin with rfl | hin
        · exact Or.inl (List.mem_cons_self d visited)
        · exact Or.inr (List.mem_append_right _ hin)
  | case4 visited c rest h q ch hget hq ih =>
    intro hinv
    rw [dfsAux_cons_skip h (fun ch0 hc => by rw [hget] at hc; exact hq (Square.Occupied.inj (Except.ok.inj hc)).1)]
    refine ih ?_
    intro v hv d hd hocc
    rcases hinv v hv d hd hocc with hin | hin
    · exact Or.inl hin
    · rcases List.mem_cons.mp hin with rfl | hin
      · obtain ⟨ch0, hc⟩ := hocc
        rw [hget] at hc
        exact absurd (Square.Occupied.inj (Except.ok.inj hc)).1 hq
      · exact Or.inr hin
  | case5 visited c rest h hget ih =>
    intro hinv
    rw [dfsAux_cons_skip h (fun ch0 hc => by rw [hget] at hc; exact absurd hc (by simp))]
    refine ih ?_
    intro v hv d hd hocc
    rcases hinv v hv d hd hocc with hin | hin
    · exact Or.inl hin
    · rcases List.mem_cons.mp hin with rfl | hin
      · obtain ⟨ch0, hc⟩ := hocc
        rw [hget] at hc
        exact absurd hc (by simp)
      · exact Or.inr hin
  | case6 visited c rest h e hget ih =>
    intro hinv
    rw [dfsAux_cons_skip h (fun ch0 hc => by rw [hget] at hc; exact absurd hc (by simp))]
    refine ih ?_
    intro v hv d hd hocc
    rcases hinv v hv d hd hocc with hin | hin
    · exact Or.inl hin
    · rcases List.mem_cons.mp hin with rfl | hin
      · obtain ⟨ch0, hc⟩ := hocc
        rw [hget] at hc
        exact absurd hc (by simp)
      · exact Or.inr hin

/-- Soundness of the flood-fill: everything it visits is joined to the
start by a same-player chain. -/
lemma reaches_of_mem_dfs {b : Board} {start c : Coordinate}
    (h : c ∈ b.depth_first_search start) :
    ∃ p ch, b.get start = .ok (.Occupied p ch) ∧ Reaches b p start c := by
  unfold Board.depth_first_search at h
  split at h
  next p ch hget =>
    refine ⟨p, ch, hget, ?_⟩
    refine dfsAux_sound b p (Reaches b p start) (fun c0 d h0 hd ho => Reaches.step c0 d h0 hd ho)
      [] [start] (by simp) ?_ c h
    intro t ht hocc
    rcases List.mem_cons.mp ht with rfl | ht
    · exact Reaches.refl hocc
    · cases ht
  next hne => cases h

/-- Completeness of the flood-fill: it visits everything joined to the
start by a same-player chain. -/
lemma mem_dfs_of_reaches {b : Board} {start c : Coordinate} {p : Nat} {ch : Char}
    (hstart : b.get start = .ok (.Occupied p ch)) (h : Reaches b p start c) :
    c ∈ b.depth_first_search start := by
  unfold Board.depth_first_search
  rw [hstart]
  have hclosed := dfsAux_closed b p [] [start] (by simp)
  have hstartmem : start ∈ dfsAux b p [] [start] :=
    dfsAux_todo_mem b p [] [start] start (List.mem_cons_self start []) ⟨ch, hstart⟩
  induction h with
  | refl h0 => exact hstartmem
  | step c0 d hr hd ho ih => exact hclosed c0 ih d hd ho

/-- Any cell a `Reaches` chain passes through is occupied; in particular
the chain's start is. -/
lemma reaches_occAt_start {b : Board} {p : Nat} {start c : Coordinate}
    (h : Reaches b p start c) : occAt b start p := by
  induction h with
  | refl h0 => exact h0
  | step c0 d hr hd ho ih => exact ih

lemma reaches_occAt_end {b : Board} {p : Nat} {start c : Coordinate}
    (h : Reaches b p start c) : occAt b c p := by
  cases h with
  | refl h0 => exact h0
  | step c0 d hr hd ho => exact ho

/-- Chains transfer to any board agreeing with `b` on all chain-reachable
cells. -/
lemma reaches_transfer {b b2 : Board} {p : Nat} {r : Coordinate}
    (hsame : ∀ d, Reaches b p r d → b2.get d = b.get d) :
    ∀ c, Reaches b p r c → Reaches b2 p r c := by
  intro c h
  induction h with
  | refl h0 =>
    obtain ⟨ch, hget⟩ := h0
    exact Reaches.refl ⟨ch, by rw [hsame r (Reaches.refl ⟨ch, hget⟩), hget]⟩
  | step c0 d hr hd ho ih =>
    obtain ⟨ch, hget⟩ := ho
    exact Reaches.step c0 d ih hd ⟨ch, by rw [hsame d (Reaches.step c0 d hr hd ⟨ch, hget⟩), hget]⟩

/-- The cell exists and is non-void (empty or occupied). -/
def hasCell (b : Board) (c : Coordinate) : Bool :=
  match b.squares[c.y]? with
  | some row =>
    match row[c.x]? with
    | some (some _) => true
    | _ => false
  | none => false

lemma hasCell_iff {b : Board} {c : Coordinate} :
    hasCell b c = true ↔ ∃ sq, b.get c = .ok sq := by
  unfold hasCell
  constructor
  · intro h
    split at h
    next row hy =>
      split at h
      next sq hx => exact ⟨sq, get_eq_ok_iff.mpr ⟨row, hy, hx⟩⟩
      next => cases h
    next => cases h
  · rintro ⟨sq, hget⟩
    obtain ⟨row, hy, hx⟩ := get_eq_ok_iff.mp hget
    simp [hy, hx]

lemma get_upd_self {b : Board} {c : Coordinate} {row : List (Option Square)}
    (hy : b.squares[c.y]? = some row) (hx : c.x < row.length) (v : Option Square) :
    Board.get { b with squares := b.squares.set c.y (row.set c.x v) } c =
      match v with
      | some sq => .ok sq
      | none => .error (.InvalidPosition c) := by
  have h1 : (b.squares.set c.y (row.set c.x v))[c.y]? = some (row.set c.x v) :=
    List.getElem?_set_self (by simpa using getq_lt_length hy)
  have h2 : (row.set c.x v)[c.x]? = some v := List.getElem?_set_self (by simpa using hx)
  simp only [Board.get, h1, h2]
  cases v <;> rfl

lemma get_upd_ne {b : Board} {c d : Coordinate} {row : List (Option Square)}
    (hy : b.squares[c.y]? = some row) (v : Option Square) (hne : d ≠ c) :
    Board.get { b with squares := b.squares.set c.y (row.set c.x v) } d = b.get d := by
  by_cases hyy : d.y = c.y
  · have hxx : d.x ≠ c.x := by
      intro h
      exact hne (by cases d; cases c; simp_all)
    have h1 : (b.squares.set c.y (row.set c.x v))[d.y]? = some (row.set c.x v) := by
      rw [hyy]
      exact List.getElem?_set_self (by simpa using getq_lt_length hy)
    have h2 : (row.set c.x v)[d.x]? = row[d.x]? := List.getElem?_set_ne (Ne.symm hxx)
    have h3 : b.squares[d.y]? = some row := by rw [hyy]; exact hy
    simp only [Board.get, h1, h2, h3]
  · have h1 : (b.squares.set c.y (row.set c.x v))[d.y]? = b.squares[d.y]? :=
      List.getElem?_set_ne (fun h => hyy h.symm)
    simp only [Board.get, h1]

lemma clear_roots (b : Board) (c : Coordinate) : (b.clear c).2.roots = b.roots := by
  unfold Board.clear
  split
  next row hy =>
    split
    next sq hx => split <;> rfl
    next => rfl
  next => rfl

lemma clear_orientations (b : Board) (c : Coordinate) :
    (b.clear c).2.orientations = b.orientations := by
  unfold Board.clear
  split
  next row hy =>
    split
    next sq hx => split <;> rfl
    next => rfl
  next => rfl

lemma clear_of_not_occ {b : Board} {c : Coordinate}
    (h : ∀ p ch, b.get c ≠ .ok (.Occupied p ch)) : b.clear c = (none, b) := by
  unfold Board.clear
  split
  next row hy =>
    split
    next sq hx =>
      cases sq with
      | Empty => rfl
      | Occupied p ch => exact absurd (get_eq_ok_iff.mpr ⟨row, hy, hx⟩) (h p ch)
    next => rfl
  next => rfl

lemma clear_of_occ {b : Board} {c : Coordinate} {p : Nat} {ch : Char}
    (h : b.get c = .ok (.Occupied p ch)) :
    ∃ row, b.squares[c.y]? = some row ∧ row[c.x]? = some (some (.Occupied p ch)) ∧
      b.clear c = (some { square := .Occupied p ch, coordinate := c },
        { b with squares := b.squares.set c.y (row.set c.x (some .Empty)) }) := by
  obtain ⟨row, hy, hx⟩ := get_eq_ok_iff.mp h
  refine ⟨row, hy, hx, ?_⟩
  unfold Board.clear
  simp [hy, hx]

lemma clear_get_self {b : Board} {c : Coordinate} {p : Nat} {ch : Char}
    (h : b.get c = .ok (.Occupied p ch)) : (b.clear c).2.get c = .ok .Empty := by
  obtain ⟨row, hy, hx, heq⟩ := clear_of_occ h
  rw [heq]
  exact get_upd_self hy (getq_lt_length hx) (some .Empty)

lemma clear_get_ne {b : Board} {c d : Coordinate} (hne : d ≠ c) :
    (b.clear c).2.get d = b.get d := by
  unfold Board.clear
  split
  next row hy =>
    split
    next sq hx =>
      cases sq with
      | Empty => rfl
      | Occupied p ch => exact get_upd_ne hy (some .Empty) hne
    next => rfl
  next => rfl

lemma set_roots (b : Board) (c : Coordinate) (player : Nat) (v : Char) :
    (b.set c player v).2.roots = b.roots := by
  unfold Board.set
  split
  next => rfl
  next =>
    split
    next row hy =>
      split
      next sq hx => rfl
      next => rfl
      next => rfl
    next => rfl

lemma set_orientations (b : Board) (c : Coordinate) (player : Nat) (v : Char) :
    (b.set c player v).2.orientations = b.orientations := by
  unfold Board.set
  split
  next => rfl
  next =>
    split
    next row hy =>
      split
      next sq hx => rfl
      next => rfl
      next => rfl
    next => rfl

lemma set_of_ok {b : Board} {c : Coordinate} {player : Nat} {v : Char} {r : Coordinate}
    {row : List (Option Square)} {sq : Square}
    (hroot : b.roots[player]? = some r) (hy : b.squares[c.y]? = some row)
    (hx : row[c.x]? = some (some sq)) :
    b.set c player v = (.ok { square := .Occupied player v, coordinate := c },
      { b with squares := b.squares.set c.y (row.set c.x (some (.Occupied player v))) }) := by
  unfold Board.set
  simp [hroot, hy, hx]

lemma set_err_snd {b : Board} {c : Coordinate} {player : Nat} {v : Char} {e : GamePlayError}
    (h : (b.set c player v).1 = .error e) : (b.set c player v).2 = b := by
  unfold Board.set at h ⊢
  split at h
  next => rfl
  next hroot =>
    split at h
    next row hy =>
      split at h
      next sq hx =>
        simp only [hroot, hy, hx] at h
        cases h
      next hx => simp [hroot, hy, hx]
      next hx => simp [hroot, hy, hx]
    next hy => simp [hroot, hy]

lemma set_get_self {b : Board} {c : Coordinate} {player : Nat} {v : Char} {r : Coordinate}
    {row : List (Option Square)} {sq : Square}
    (hroot : b.roots[player]? = some r) (hy : b.squares[c.y]? = some row)
    (hx : row[c.x]? = some (some sq)) :
    (b.set c player v).2.get c = .ok (.Occupied player v) := by
  rw [set_of_ok hroot hy hx]
  exact get_upd_self hy (getq_lt_length hx) (some (.Occupied player v))

lemma set_get_ne {b : Board} {c d : Coordinate} {player : Nat} {v : Char} (hne : d ≠ c) :
    (b.set c player v).2.get d = b.get d := by
  unfold Board.set
  split
  next => rfl
  next =>
    split
    next row hy =>
      split
      next sq hx => exact get_upd_ne hy _ hne
      next => rfl
      next => rfl
    next => rfl

/-- The union of the connected groups containing every player's root: the
`attatched` set `Board::truncate` computes before its sweep. -/
def attachedSet (b : Board) : List Coordinate :=
  b.roots.foldl (fun acc root => acc ++ b.depth_first_search root) []

lemma mem_foldl_append {α β : Type} (f : β → List α) (l : List β) (init : List α) (x : α) :
    x ∈ l.foldl (fun acc r => acc ++ f r) init ↔ x ∈ init ∨ ∃ r ∈ l, x ∈ f r := by
  induction l generalizing init with
  | nil => simp
  | cons a t ih =>
    rw [List.foldl_cons, ih]
    simp only [List.mem_append, List.mem_cons]
    constructor
    · rintro ((h | h) | ⟨r, hr, hx⟩)
      · exact Or.inl h
      · exact Or.inr ⟨a, Or.inl rfl, h⟩
      · exact Or.inr ⟨r, Or.inr hr, hx⟩
    · rintro (h | ⟨r, (rfl | hr), hx⟩)
      · exact Or.inl (Or.inl h)
      · exact Or.inl (Or.inr hx)
      · exact Or.inr ⟨r, hr, hx⟩

lemma mem_attachedSet {b : Board} {x : Coordinate} :
    x ∈ attachedSet b ↔ ∃ r ∈ b.roots, x ∈ b.depth_first_search r := by
  unfold attachedSet
  rw [mem_foldl_append]
  simp

/-- The cell is occupied (by anyone). -/
def isOcc (b : Board) (c : Coordinate) : Bool :=
  match b.get c with
  | .ok (.Occupied _ _) => true
  | _ => false

/-- The square stored at a coordinate, defaulting to `Empty` off the grid. -/
def squareAtD (b : Board) (c : Coordinate) : Square :=
  match b.get c with
  | .ok sq => sq
  | .error _ => .Empty

/-- The letter stored at a coordinate, with a junk default off occupied
cells (only ever used on occupied ones). -/
def letterAtD (b : Board) (c : Coordinate) : Char :=
  match b.get c with
  | .ok (.Occupied _ ch) => ch
  | _ => 'A'

/-- One iteration of the `truncate` sweep: a coordinate outside the
attached set has its letter (if occupied) returned to the bag, is cleared,
and yields one Truncated change event. -/
def truncStep (attached : List Coordinate) (acc : List Change × Board × TileBag)
    (c : Coordinate) : List Change × Board × TileBag :=
  if c ∈ attached then acc
  else
    let bg :=
      match acc.2.1.get c with
      | .ok (.Occupied _ letter) => acc.2.2.return_tile letter
      | _ => acc.2.2
    match acc.2.1.clear c with
    | (some detail, brd) =>
      (acc.1 ++ [Change.Board { detail := detail, action := .Truncated }], brd, bg)
    | (none, brd) => (acc.1, brd, bg)

/-- `Board::truncate`: sweeps the grid row-major, clearing every occupied
cell not attached to a root, returning its letter to the bag and emitting
a Truncated change per cleared cell. -/
def Board.truncate (b : Board) (bag : TileBag) : List Change × Board × TileBag :=
  (allCoords b).foldl (truncStep (attachedSet b)) ([], b, bag)

/-- The cells the sweep clears: in-range, unattached, occupied; row-major. -/
def truncCells (b : Board) : List Coordinate :=
  (allCoords b).filter (fun c => decide (c ∉ attachedSet b) && isOcc b c)

lemma truncStep_foldl_char (b : Board) (attached : List Coordinate) :
    ∀ (cs : List Coordinate), cs.Nodup →
      ∀ (chs : List Change) (brd : Board) (bg : TileBag),
        (∀ c ∈ cs, brd.get c = b.get c) →
        (cs.foldl (truncStep attached) (chs, brd, bg)).1 =
            chs ++ (cs.filter (fun c => decide (c ∉ attached) && isOcc b c)).map
              (fun c => Change.Board ⟨⟨squareAtD b c, c⟩, .Truncated⟩) ∧
          (cs.foldl (truncStep attached) (chs, brd, bg)).2.2.returned =
            bg.returned ++ (cs.filter (fun c => decide (c ∉ attached) && isOcc b c)).map (letterAtD b) ∧
          (cs.foldl (truncStep attached) (chs, brd, bg)).2.1.roots = brd.roots ∧
          ∀ d, (cs.foldl (truncStep attached) (chs, brd, bg)).2.1.get d =
            if d ∈ cs.filter (fun c => decide (c ∉ attached) && isOcc b c) then .ok .Empty
            else brd.get d := by
  intro cs
  induction cs with
  | nil =>
    intro _ chs brd bg _
    simp
  | cons c cs ih =>
    intro hnd chs brd bg hsame
    have hcnotin : c ∉ cs := (List.nodup_cons.mp hnd).1
    have hnd' : cs.Nodup := (List.nodup_cons.mp hnd).2
    have hbc : brd.get c = b.get c := hsame c (List.mem_cons_self c cs)
    by_cases hc : c ∈ attached
    · have hstep : truncStep attached (chs, brd, bg) c = (chs, brd, bg) := by
        unfold truncStep
        rw [if_pos hc]
      have hfilter : (c :: cs).filter (fun c => decide (c ∉ attached) && isOcc b c) =
          cs.filter (fun c => decide (c ∉ attached) && isOcc b c) := by
        rw [List.filter_cons]
        simp [hc]
      rw [List.foldl_cons, hstep, hfilter]
      exact ih hnd' chs brd bg (fun c0 hc0 => hsame c0 (List.mem_cons_of_mem c hc0))
    · by_cases hocc : isOcc b c = true
      · obtain ⟨p, ch, hget⟩ : ∃ p ch, b.get c = .ok (.Occupied p ch) := by
          unfold isOcc at hocc
          split at hocc
          next p0 ch0 h0 => exact ⟨p0, ch0, h0⟩
          next => cases hocc
        have hbrdget : brd.get c = .ok (.Occupied p ch) := by rw [hbc, hget]
        obtain ⟨row, hy, hx, hclear⟩ := clear_of_occ hbrdget
        have hstep : truncStep attached (chs, brd, bg) c =
            (chs ++ [Change.Board ⟨⟨.Occupied p ch, c⟩, .Truncated⟩],
              (brd.clear c).2, bg.return_tile ch) := by
          unfold truncStep
          rw [if_neg hc]
          simp only [hbrdget, hclear]
        have hsame2 : ∀ c0 ∈ cs, (brd.clear c).2.get c0 = b.get c0 := by
          intro c0 hc0
          have hne : c0 ≠ c := fun h => hcnotin (h ▸ hc0)
          rw [clear_get_ne hne]
          exact hsame c0 (List.mem_cons_of_mem c hc0)
        obtain ⟨ih1, ih2, ih3, ih4⟩ := ih hnd'
          (chs ++ [Change.Board ⟨⟨.Occupied p ch, c⟩, .Truncated⟩])
          (brd.clear c).2 (bg.return_tile ch) hsame2
        have hfilter : (c :: cs).filter (fun c => decide (c ∉ attached) && isOcc b c) =
            c :: cs.filter (fun c => decide (c ∉ attached) && isOcc b c) := by
          rw [List.filter_cons]
          simp [hc, hocc]
        have hsqAt : squareAtD b c = .Occupied p ch := by simp [squareAtD, hget]
        have hltAt : letterAtD b c = ch := by simp [letterAtD, hget]
        refine ⟨?_, ?_, ?_, ?_⟩
        · rw [List.foldl_cons, hstep, ih1, hfilter, List.map_cons, hsqAt, List.append_assoc]
          rfl
        · rw [List.foldl_cons, hstep, ih2, hfilter, List.map_cons, hltAt]
          unfold TileBag.return_tile
          rw [List.append_assoc]
          rfl
        · rw [List.foldl_cons, hstep, ih3, clear_roots]
        · intro d
          rw [List.foldl_cons, hstep, ih4 d, hfilter]
          by_cases hd1 : d ∈ cs.filter (fun c => decide (c ∉ attached) && isOcc b c)
          · rw [if_pos hd1, if_pos (List.mem_cons_of_mem c hd1)]
          · by_cases hd2 : d = c
            · subst hd2
              rw [if_neg hd1, if_pos (List.mem_cons_self d _), clear_get_self hbrdget]
            · rw [if_neg hd1, if_neg (by
                intro hmem
                rcases List.mem_cons.mp hmem with h | h
                · exact hd2 h
                · exact hd1 h)]
              exact clear_get_ne hd2
      · have hnocc : ∀ p ch, b.get c ≠ .ok (.Occupied p ch) := by
          intro p ch h
          exact hocc (by simp [isOcc, h])
        have hclear : brd.clear c = (none, brd) :=
          clear_of_not_occ (fun p ch h => hnocc p ch (by rw [← hbc]; exact h))
        have hstep : truncStep attached (chs, brd, bg) c = (chs, brd, bg) := by
          unfold truncStep
          rw [if_neg hc]
          simp only [hclear]
          split
          next p0 ch0 heq =>
            rw [hbc] at heq
            exact absurd heq (hnocc p0 ch0)
          next => rfl
        have hfilter : (c :: cs).filter (fun c => decide (c ∉ attached) && isOcc b c) =
            cs.filter (fun c => decide (c ∉ attached) && isOcc b c) := by
          rw [List.filter_cons]
          simp [hocc]
        rw [List.foldl_cons, hstep, hfilter]
        exact ih hnd' chs brd bg (fun c0 hc0 => hsame c0 (List.mem_cons_of_mem c hc0))

/-- The board-shape invariant of the spec's data model: all rows have the
same length (width is the length of row zero). -/
def Rectangular (b : Board) : Prop :=
  ∀ row ∈ b.squares, row.length = b.width

instance instDecRectangular (b : Board) : Decidable (Rectangular b) :=
  inferInstanceAs (Decidable (∀ row ∈ b.squares, row.length = b.width))

lemma occ_in_allCoords {b : Board} {c : Coordinate} {sq : Square}
    (h : b.get c = .ok sq) (hrect : Rectangular b) : c ∈ allCoords b := by
  obtain ⟨row, hy, hx⟩ := get_eq_ok_iff.mp h
  refine mem_allCoords.mpr ⟨?_, getq_lt_length hy⟩
  rw [← hrect row (List.getElem?_mem hy)]
  exact getq_lt_length hx

lemma truncate_char (b : Board) (bag : TileBag) :
    (b.truncate bag).1 = (truncCells b).map
        (fun c => Change.Board ⟨⟨squareAtD b c, c⟩, .Truncated⟩) ∧
      (b.truncate bag).2.2.returned = bag.returned ++ (truncCells b).map (letterAtD b) ∧
      (b.truncate bag).2.1.roots = b.roots ∧
      ∀ d, (b.truncate bag).2.1.get d =
        if d ∈ truncCells b then .ok .Empty else b.get d := by
  obtain ⟨h1, h2, h3, h4⟩ := truncStep_foldl_char b (attachedSet b) (allCoords b)
    (nodup_allCoords b) [] b bag (fun c _ => rfl)
  rw [List.nil_append] at h1
  unfold Board.truncate truncCells
  exact ⟨h1, h2, h3, h4⟩

/-- C1: `truncate(bag)` computes the union of the `depth_first_search`
groups containing every player's root; every occupied cell not in that
union is cleared, its letter returned to the bag exactly once and exactly
one Truncated change produced per cleared cell (the cleared cells
`truncCells b` are listed without repetition); afterwards every remaining
occupied cell is reachable (is in the flood-fill group) from some root,
and cells in the union are unchanged. -/
theorem C1_truncate_spec (b : Board) (bag : TileBag) (hrect : Rectangular b) :
    (∀ c, c ∈ attachedSet b → (b.truncate bag).2.1.get c = b.get c) ∧
      (∀ c p ch, b.get c = .ok (.Occupied p ch) → c ∉ attachedSet b →
        (b.truncate bag).2.1.get c = .ok .Empty) ∧
      (truncCells b).Nodup ∧
      (b.truncate bag).2.2.returned = bag.returned ++ (truncCells b).map (letterAtD b) ∧
      (b.truncate bag).1 = (truncCells b).map
        (fun c => Change.Board ⟨⟨squareAtD b c, c⟩, .Truncated⟩) ∧
      ∀ c p ch, (b.truncate bag).2.1.get c = .ok (.Occupied p ch) →
        ∃ r ∈ b.roots, c ∈ (b.truncate bag).2.1.depth_first_search r := by
  obtain ⟨h1, h2, h3, h4⟩ := truncate_char b bag
  refine ⟨?_, ?_, ?_, h2, h1, ?_⟩
  · intro c hc
    have hnot : c ∉ truncCells b := by
      intro hmem
      have hp := (List.mem_filter.mp hmem).2
      simp [hc] at hp
    rw [h4 c, if_neg hnot]
  · intro c p ch hget hna
    have hmem : c ∈ truncCells b := by
      refine List.mem_filter.mpr ⟨occ_in_allCoords hget hrect, ?_⟩
      simp [hna, isOcc, hget]
    rw [h4 c, if_pos hmem]
  · exact List.Nodup.filter _ (nodup_allCoords b)
  · intro c p ch hoc
    have hnotrem : c ∉ truncCells b := by
      intro hmem
      rw [h4 c, if_pos hmem] at hoc
      cases hoc
    have hbc : b.get c = .ok (.Occupied p ch) := by
      rw [h4 c, if_neg hnotrem] at hoc
      exact hoc
    have hatt : c ∈ attachedSet b := by
      by_contra hna
      exact hnotrem (List.mem_filter.mpr ⟨occ_in_allCoords hbc hrect, by simp [hna, isOcc, hbc]⟩)
    obtain ⟨r, hr, hcr⟩ := mem_attachedSet.mp hatt
    obtain ⟨p0, ch0, hroot, hreach⟩ := reaches_of_mem_dfs hcr
    have hsame : ∀ d, Reaches b p0 r d → (b.truncate bag).2.1.get d = b.get d := by
      intro d hd
      have hdmem : d ∈ b.depth_first_search r := mem_dfs_of_reaches hroot hd
      have hdatt : d ∈ attachedSet b := mem_attachedSet.mpr ⟨r, hr, hdmem⟩
      have hdnot : d ∉ truncCells b := by
        intro hmem
        have hp := (List.mem_filter.mp hmem).2
        simp [hdatt] at hp
      rw [h4 d, if_neg hdnot]
    have hreach2 : Reaches (b.truncate bag).2.1 p0 r c := reaches_transfer hsame c hreach
    have hroot2 : (b.truncate bag).2.1.get r = .ok (.Occupied p0 ch0) := by
      rw [hsame r (Reaches.refl ⟨ch0, hroot⟩), hroot]
    exact ⟨r, hr, mem_dfs_of_reaches hroot2 hreach2⟩

/-- Witness for C1 at a concrete board. -/
theorem C1_truncate_spec_witness :
    Rectangular ⟨[[some (.Occupied 0 'A')]], [⟨0, 0⟩], [.North]⟩ ∧
      ((∀ c, c ∈ attachedSet ⟨[[some (.Occupied 0 'A')]], [⟨0, 0⟩], [.North]⟩ →
          ((⟨[[some (.Occupied 0 'A')]], [⟨0, 0⟩], [.North]⟩ : Board).truncate ⟨[]⟩).2.1.get c =
            (⟨[[some (.Occupied 0 'A')]], [⟨0, 0⟩], [.North]⟩ : Board).get c) ∧
        (∀ c p ch, (⟨[[some (.Occupied 0 'A')]], [⟨0, 0⟩], [.North]⟩ : Board).get c =
            .ok (.Occupied p ch) →
            c ∉ attachedSet ⟨[[some (.Occupied 0 'A')]], [⟨0, 0⟩], [.North]⟩ →
          ((⟨[[some (.Occupied 0 'A')]], [⟨0, 0⟩], [.North]⟩ : Board).truncate ⟨[]⟩).2.1.get c =
            .ok .Empty) ∧
        (truncCells ⟨[[some (.Occupied 0 'A')]], [⟨0, 0⟩], [.North]⟩).Nodup ∧
        ((⟨[[some (.Occupied 0 'A')]], [⟨0, 0⟩], [.North]⟩ : Board).truncate ⟨[]⟩).2.2.returned =
          ([] : List Char) ++ (truncCells ⟨[[some (.Occupied 0 'A')]], [⟨0, 0⟩], [.North]⟩).map
            (letterAtD ⟨[[some (.Occupied 0 'A')]], [⟨0, 0⟩], [.North]⟩) ∧
        ((⟨[[some (.Occupied 0 'A')]], [⟨0, 0⟩], [.North]⟩ : Board).truncate ⟨[]⟩).1 =
          (truncCells ⟨[[some (.Occupied 0 'A')]], [⟨0, 0⟩], [.North]⟩).map
            (fun c => Change.Board ⟨⟨squareAtD ⟨[[some (.Occupied 0 'A')]], [⟨0, 0⟩], [.North]⟩ c, c⟩,
              .Truncated⟩) ∧
        ∀ c p ch,
          ((⟨[[some (.Occupied 0 'A')]], [⟨0, 0⟩], [.North]⟩ : Board).truncate ⟨[]⟩).2.1.get c =
            .ok (.Occupied p ch) →
          ∃ r ∈ (⟨[[some (.Occupied 0 'A')]], [⟨0, 0⟩], [.North]⟩ : Board).roots,
            c ∈ ((⟨[[some (.Occupied 0 'A')]], [⟨0, 0⟩], [.North]⟩ : Board).truncate ⟨[]⟩).2.1.depth_first_search r) :=
  ⟨by decide, C1_truncate_spec ⟨[[some (.Occupied 0 'A')]], [⟨0, 0⟩], [.North]⟩ ⟨[]⟩ (by decide)⟩

/-- The per-position check-and-exchange loop of `Board::swap` after the
policy gate: validates both positions (empty → `UnoccupiedSwap`, another
owner → `UnownedSwap`, `get` errors propagate) and then performs the two
`set` writes with the letters exchanged. -/
def swapGo (b : Board) (player : Nat) (p0 p1 : Coordinate) :
    Except GamePlayError (List Change) × Board :=
  match b.get p0 with
  | .error e => (.error e, b)
  | .ok .Empty => (.error .UnoccupiedSwap, b)
  | .ok (.Occupied o0 t0) =>
    if o0 ≠ player then (.error .UnownedSwap, b)
    else
      match b.get p1 with
      | .error e => (.error e, b)
      | .ok .Empty => (.error .UnoccupiedSwap, b)
      | .ok (.Occupied o1 t1) =>
        if o1 ≠ player then (.error .UnownedSwap, b)
        else
          match b.set p0 player t1 with
          | (.error e, b2) => (.error e, b2)
          | (.ok d0, b2) =>
            match b2.set p1 player t0 with
            | (.error e, b3) => (.error e, b3)
            | (.ok d1, b3) =>
              (.ok [Change.Board ⟨d0, .Swapped⟩, Change.Board ⟨d1, .Swapped⟩], b3)

/-- `Board::swap`: `SelfSwap` on identical targets, then the policy gate
(`Contiguous` requires the second target inside the first target's
flood-fill group, `None` always fails), then the per-position checks and
the exchange. -/
def Board.swap (b : Board) (player : Nat) (positions : Coordinate × Coordinate)
    (swap_rules : Swapping) : Except GamePlayError (List Change) × Board :=
  if positions.1 = positions.2 then (.error .SelfSwap, b)
  else
    match swap_rules with
    | .Contiguous _ =>
      if positions.2 ∈ b.depth_first_search positions.1 then
        swapGo b player positions.1 positions.2
      else (.error .DisjointSwap, b)
    | .Universal _ => swapGo b player positions.1 positions.2
    | .None => (.error .NoSwapping, b)

/-- The policy gate of `swap` lets the pair through. -/
def swapGatePasses (b : Board) (p0 p1 : Coordinate) : Swapping → Prop
  | .Contiguous _ => p1 ∈ b.depth_first_search p0
  | .Universal _ => True
  | .None => False

lemma swap_eq_go {b : Board} {player : Nat} {p0 p1 : Coordinate} {pol : Swapping}
    (hne : p0 ≠ p1) (hgate : swapGatePasses b p0 p1 pol) :
    b.swap player (p0, p1) pol = swapGo b player p0 p1 := by
  unfold Board.swap
  rw [if_neg hne]
  cases pol with
  | Contiguous pen => exact if_pos hgate
  | Universal pen => rfl
  | None => cases hgate

lemma set_player_none {b : Board} {c : Coordinate} {player : Nat} {v : Char}
    (h : b.roots[player]? = none) :
    b.set c player v = (.error (.NonExistentPlayer player), b) := by
  unfold Board.set
  rw [h]

lemma swapGo_success {b : Board} {player : Nat} {p0 p1 : Coordinate} {t0 t1 : Char}
    {r : Coordinate} (hne : p0 ≠ p1)
    (h0 : b.get p0 = .ok (.Occupied player t0)) (h1 : b.get p1 = .ok (.Occupied player t1))
    (hr : b.roots[player]? = some r) :
    (swapGo b player p0 p1).1 =
        .ok [Change.Board ⟨⟨.Occupied player t1, p0⟩, .Swapped⟩,
          Change.Board ⟨⟨.Occupied player t0, p1⟩, .Swapped⟩] ∧
      (swapGo b player p0 p1).2.get p0 = .ok (.Occupied player t1) ∧
      (swapGo b player p0 p1).2.get p1 = .ok (.Occupied player t0) ∧
      (∀ d, d ≠ p0 → d ≠ p1 → (swapGo b player p0 p1).2.get d = b.get d) ∧
      (swapGo b player p0 p1).2.roots = b.roots ∧
      (swapGo b player p0 p1).2.orientations = b.orientations := by
  obtain ⟨row0, hy0, hx0⟩ := get_eq_ok_iff.mp h0
  have hset1 := set_of_ok (v := t1) hr hy0 hx0
  set b2 := { b with squares := b.squares.set p0.y (row0.set p0.x (some (.Occupied player t1))) }
    with hb2
  have hb2get1 : b2.get p1 = .ok (.Occupied player t1) := by
    have : (b.set p0 player t1).2.get p1 = b.get p1 := set_get_ne (Ne.symm hne)
    rw [hset1] at this
    rw [this, h1]
  have hb2roots : b2.roots = b.roots := rfl
  obtain ⟨row1, hy1, hx1⟩ := get_eq_ok_iff.mp hb2get1
  have hr2 : b2.roots[player]? = some r := hr
  have hset2 := set_of_ok (v := t0) hr2 hy1 hx1
  have hgo : swapGo b player p0 p1 =
      (.ok [Change.Board ⟨⟨.Occupied player t1, p0⟩, .Swapped⟩,
        Change.Board ⟨⟨.Occupied player t0, p1⟩, .Swapped⟩], (b2.set p1 player t0).2) := by
    unfold swapGo
    simp only [h0, h1, hset1, ← hb2, hset2]
    simp
  rw [hgo]
  refine ⟨rfl, ?_, ?_, ?_, ?_, ?_⟩
  · have h2 : (b2.set p1 player t0).2.get p0 = b2.get p0 := set_get_ne hne
    have h3 : b2.get p0 = .ok (.Occupied player t1) := by
      have := set_get_self (v := t1) hr hy0 hx0
      rw [hset1] at this
      exact this
    rw [h2, h3]
  · exact set_get_self (v := t0) hr2 hy1 hx1
  · intro d hd0 hd1
    have h2 : (b2.set p1 player t0).2.get d = b2.get d := set_get_ne hd1
    have h3 : b2.get d = b.get d := by
      have := @set_get_ne b p0 d player t1 hd0
      rw [hset1] at this
      exact this
    rw [h2, h3]
  · rw [set_roots]
  · rw [set_orientations]

lemma swapGo_err_snd {b : Board} {player : Nat} {p0 p1 : Coordinate}
    (hne : p0 ≠ p1) {e : GamePlayError}
    (h : (swapGo b player p0 p1).1 = .error e) : (swapGo b player p0 p1).2 = b := by
  cases hg0 : b.get p0 with
  | error e0 => simp [swapGo, hg0]
  | ok sq0 =>
    cases sq0 with
    | Empty => simp [swapGo, hg0]
    | Occupied o0 t0 =>
      by_cases ho0 : o0 ≠ player
      · simp [swapGo, hg0, ho0]
      · push_neg at ho0
        subst ho0
        cases hg1 : b.get p1 with
        | error e1 => simp [swapGo, hg0, hg1]
        | ok sq1 =>
          cases sq1 with
          | Empty => simp [swapGo, hg0, hg1]
          | Occupied o1 t1 =>
            by_cases ho1 : o1 ≠ o0
            · simp [swapGo, hg0, hg1, ho1]
            · push_neg at ho1
              subst ho1
              cases hrt : b.roots[o1]? with
              | none =>
                have hset1 := set_player_none (c := p0) (v := t1) hrt
                simp [swapGo, hg0, hg1, hset1]
              | some r =>
                obtain ⟨hgo1, _, _, _, _, _⟩ := swapGo_success hne hg0 hg1 hrt
                rw [hgo1] at h
                cases h

/-- C2 (amended): full behaviour of `swap`.  `SelfSwap` on identical
targets regardless of policy; then the policy gate runs *before* any
occupancy check (`None` → `NoSwapping`, `Contiguous` → `DisjointSwap`
unless the second target is in the first's flood-fill group); past the
gate, `get` errors propagate and `UnoccupiedSwap`/`UnownedSwap` are
returned unless both cells are occupied by the player; on success the two
letters are exchanged in place and two Swapped change events carry the new
detail at each coordinate. -/
theorem C2_swap_spec (b : Board) (player : Nat) (p0 p1 : Coordinate) (pol : Swapping) :
    (p0 = p1 → b.swap player (p0, p1) pol = (.error .SelfSwap, b)) ∧
      (p0 ≠ p1 → pol = .None → b.swap player (p0, p1) pol = (.error .NoSwapping, b)) ∧
      (∀ pen, p0 ≠ p1 → pol = .Contiguous pen → p1 ∉ b.depth_first_search p0 →
        b.swap player (p0, p1) pol = (.error .DisjointSwap, b)) ∧
      (p0 ≠ p1 → swapGatePasses b p0 p1 pol →
        (∀ e, b.get p0 = .error e → b.swap player (p0, p1) pol = (.error e, b)) ∧
        (b.get p0 = .ok .Empty → b.swap player (p0, p1) pol = (.error .UnoccupiedSwap, b)) ∧
        (∀ o0 t0, b.get p0 = .ok (.Occupied o0 t0) → o0 ≠ player →
          b.swap player (p0, p1) pol = (.error .UnownedSwap, b)) ∧
        ∀ t0, b.get p0 = .ok (.Occupied player t0) →
          (∀ e, b.get p1 = .error e → b.swap player (p0, p1) pol = (.error e, b)) ∧
          (b.get p1 = .ok .Empty → b.swap player (p0, p1) pol = (.error .UnoccupiedSwap, b)) ∧
          (∀ o1 t1, b.get p1 = .ok (.Occupied o1 t1) → o1 ≠ player →
            b.swap player (p0, p1) pol = (.error .UnownedSwap, b)) ∧
          ∀ t1 r, b.get p1 = .ok (.Occupied player t1) → b.roots[player]? = some r →
            (b.swap player (p0, p1) pol).1 =
                .ok [Change.Board ⟨⟨.Occupied player t1, p0⟩, .Swapped⟩,
                  Change.Board ⟨⟨.Occupied player t0, p1⟩, .Swapped⟩] ∧
              (b.swap player (p0, p1) pol).2.get p0 = .ok (.Occupied player t1) ∧
              (b.swap player (p0, p1) pol).2.get p1 = .ok (.Occupied player t0) ∧
              (∀ d, d ≠ p0 → d ≠ p1 → (b.swap player (p0, p1) pol).2.get d = b.get d) ∧
              (b.swap player (p0, p1) pol).2.roots = b.roots ∧
              (b.swap player (p0, p1) pol).2.orientations = b.orientations) := by
  refine ⟨?_, ?_, ?_, ?_⟩
  · intro h
    unfold Board.swap
    rw [if_pos h]
  · intro hne hpol
    subst hpol
    unfold Board.swap
    rw [if_neg hne]
  · intro pen hne hpol hnot
    subst hpol
    unfold Board.swap
    rw [if_neg hne]
    exact if_neg hnot
  · intro hne hgate
    rw [swap_eq_go hne hgate]
    refine ⟨?_, ?_, ?_, ?_⟩
    · intro e he
      simp [swapGo, he]
    · intro he
      simp [swapGo, he]
    · intro o0 t0 he ho
      simp [swapGo, he, ho]
    · intro t0 h0
      refine ⟨?_, ?_, ?_, ?_⟩
      · intro e he
        simp [swapGo, h0, he]
      · intro he
        simp [swapGo, h0, he]
      · intro o1 t1 he ho
        simp [swapGo, h0, he, ho]
      · intro t1 r h1 hr
        exact swapGo_success hne h0 h1 hr

/-- Witness for C2 at a concrete success instance. -/
theorem C2_swap_spec_witness :
    ((⟨0, 0⟩ : Coordinate) ≠ ⟨1, 0⟩) ∧
      swapGatePasses ⟨[[some (.Occupied 0 'A'), some (.Occupied 0 'B')]], [⟨0, 0⟩], [.South]⟩
        ⟨0, 0⟩ ⟨1, 0⟩ (.Universal ⟨2, [5]⟩) ∧
      ((⟨[[some (.Occupied 0 'A'), some (.Occupied 0 'B')]], [⟨0, 0⟩], [.South]⟩ : Board).swap 0
          (⟨0, 0⟩, ⟨1, 0⟩) (.Universal ⟨2, [5]⟩)).1 =
        .ok [Change.Board ⟨⟨.Occupied 0 'B', ⟨0, 0⟩⟩, .Swapped⟩,
          Change.Board ⟨⟨.Occupied 0 'A', ⟨1, 0⟩⟩, .Swapped⟩] := by
  refine ⟨by decide, trivial, ?_⟩
  have h := (((C2_swap_spec ⟨[[some (.Occupied 0 'A'), some (.Occupied 0 'B')]], [⟨0, 0⟩], [.South]⟩
    0 ⟨0, 0⟩ ⟨1, 0⟩ (.Universal ⟨2, [5]⟩)).2.2.2 (by decide) trivial).2.2.2 'A' (by decide)).2.2.2
    'B' ⟨0, 0⟩ (by decide) (by decide)
  exact h.1

/-- C2 counterexample: under the `Contiguous` policy with the first target
empty, `swap` fails with `DisjointSwap` — not with `UnoccupiedSwap` or
`UnownedSwap` as the claim's precedence (occupancy before policy gate)
requires. -/
theorem C2_swap_counterexample :
    ((⟨[[some .Empty, some (.Occupied 0 'A')]], [⟨0, 0⟩], [.South]⟩ : Board).swap 0
        (⟨0, 0⟩, ⟨1, 0⟩) (.Contiguous ⟨2, [5]⟩) =
      (.error .DisjointSwap, ⟨[[some .Empty, some (.Occupied 0 'A')]], [⟨0, 0⟩], [.South]⟩)) ∧
      (⟨[[some .Empty, some (.Occupied 0 'A')]], [⟨0, 0⟩], [.South]⟩ : Board).get ⟨0, 0⟩ =
        .ok .Empty ∧
      GamePlayError.DisjointSwap ≠ .UnoccupiedSwap ∧
      GamePlayError.DisjointSwap ≠ .UnownedSwap := by
  refine ⟨?_, by decide, by decide, by decide⟩
  have hdfs : (⟨[[some .Empty, some (.Occupied 0 'A')]], [⟨0, 0⟩], [.South]⟩ : Board).depth_first_search
      ⟨0, 0⟩ = [] := rfl
  unfold Board.swap
  rw [if_neg (by decide)]
  simp only [hdfs]
  rw [if_neg (by simp)]

/-- C6: fallible board mutations are atomic — whenever `set` or `swap`
returns an error, the board (squares, roots and orientations alike) is
exactly what it was before the call. -/
theorem C6_atomicity :
    (∀ (b : Board) (pos : Coordinate) (player : Nat) (v : Char) (e : GamePlayError),
        (b.set pos player v).1 = .error e → (b.set pos player v).2 = b) ∧
      ∀ (b : Board) (player : Nat) (ps : Coordinate × Coordinate) (pol : Swapping)
        (e : GamePlayError),
        (b.swap player ps pol).1 = .error e → (b.swap player ps pol).2 = b := by
  refine ⟨fun b pos player v e h => set_err_snd h, ?_⟩
  intro b player ps pol e h
  obtain ⟨p0, p1⟩ := ps
  by_cases hself : p0 = p1
  · unfold Board.swap
    rw [if_pos hself]
  · unfold Board.swap at h ⊢
    rw [if_neg hself] at h ⊢
    cases pol with
    | Contiguous pen =>
      by_cases hmem : p1 ∈ b.depth_first_search p0
      · rw [if_pos hmem] at h ⊢
        exact swapGo_err_snd hself h
      · rw [if_neg hmem]
    | Universal pen => exact swapGo_err_snd hself h
    | None => rfl

/-- Witness for C6 at a concrete failing `set` and failing `swap`. -/
theorem C6_atomicity_witness :
    ((⟨[[some .Empty]], [⟨0, 0⟩], [.North]⟩ : Board).set ⟨5, 5⟩ 0 'a').1 =
        .error (.OutSideBoardDimensions ⟨5, 5⟩) ∧
      ((⟨[[some .Empty]], [⟨0, 0⟩], [.North]⟩ : Board).set ⟨5, 5⟩ 0 'a').2 =
        ⟨[[some .Empty]], [⟨0, 0⟩], [.North]⟩ ∧
      ((⟨[[some .Empty]], [⟨0, 0⟩], [.North]⟩ : Board).swap 0 (⟨0, 0⟩, ⟨0, 0⟩) .None).1 =
        .error .SelfSwap ∧
      ((⟨[[some .Empty]], [⟨0, 0⟩], [.North]⟩ : Board).swap 0 (⟨0, 0⟩, ⟨0, 0⟩) .None).2 =
        ⟨[[some .Empty]], [⟨0, 0⟩], [.North]⟩ :=
  ⟨by decide,
    C6_atomicity.1 ⟨[[some .Empty]], [⟨0, 0⟩], [.North]⟩ ⟨5, 5⟩ 0 'a'
      (.OutSideBoardDimensions ⟨5, 5⟩) (by decide),
    by decide,
    C6_atomicity.2 ⟨[[some .Empty]], [⟨0, 0⟩], [.North]⟩ 0 (⟨0, 0⟩, ⟨0, 0⟩) .None
      .SelfSwap (by decide)⟩

/-- C9 (amended): `set` succeeds exactly when the player index is valid and
the target cell exists and is non-void — empty *or* occupied; an existing
occupant is overwritten.  On failure (void cell, out of range, bad player)
the board is unchanged. -/
theorem C9_set_spec (b : Board) (pos : Coordinate) (player : Nat) (v : Char) :
    ((∃ d, (b.set pos player v).1 = .ok d) ↔
        player < b.roots.length ∧ hasCell b pos = true) ∧
      (∀ e, (b.set pos player v).1 = .error e → (b.set pos player v).2 = b) ∧
      ∀ sq, b.get pos = .ok sq → player < b.roots.length →
        (b.set pos player v).1 = .ok ⟨.Occupied player v, pos⟩ ∧
          (b.set pos player v).2.get pos = .ok (.Occupied player v) ∧
          ∀ d, d ≠ pos → (b.set pos player v).2.get d = b.get d := by
  have hok : ∀ sq, b.get pos = .ok sq → player < b.roots.length →
      (b.set pos player v).1 = .ok ⟨.Occupied player v, pos⟩ ∧
        (b.set pos player v).2.get pos = .ok (.Occupied player v) ∧
        ∀ d, d ≠ pos → (b.set pos player v).2.get d = b.get d := by
    intro sq hget hpl
    obtain ⟨row, hy, hx⟩ := get_eq_ok_iff.mp hget
    obtain ⟨r, hr⟩ : ∃ r, b.roots[player]? = some r := by
      rw [List.getElem?_eq_getElem hpl]
      exact ⟨_, rfl⟩
    refine ⟨by rw [set_of_ok (v := v) hr hy hx], set_get_self hr hy hx, fun d hd => set_get_ne hd⟩
  refine ⟨⟨?_, ?_⟩, fun e h => set_err_snd h, hok⟩
  · rintro ⟨d, hd⟩
    unfold Board.set at hd
    split at hd
    next => cases hd
    next r hr =>
      split at hd
      next row hy =>
        split at hd
        next sq hx =>
          exact ⟨getq_lt_length hr, hasCell_iff.mpr ⟨sq, get_eq_ok_iff.mpr ⟨row, hy, hx⟩⟩⟩
        next => cases hd
        next => cases hd
      next => cases hd
  · rintro ⟨hpl, hcell⟩
    obtain ⟨sq, hget⟩ := hasCell_iff.mp hcell
    exact ⟨_, (hok sq hget hpl).1⟩

/-- Witness for C9 at a concrete occupied cell being overwritten. -/
theorem C9_set_spec_witness :
    (⟨[[some (.Occupied 1 'B')]], [⟨0, 0⟩, ⟨0, 0⟩], [.North, .South]⟩ : Board).get ⟨0, 0⟩ =
        .ok (.Occupied 1 'B') ∧
      (0 : Nat) < 2 ∧
      ((⟨[[some (.Occupied 1 'B')]], [⟨0, 0⟩, ⟨0, 0⟩], [.North, .South]⟩ : Board).set
          ⟨0, 0⟩ 0 'Z').1 = .ok ⟨.Occupied 0 'Z', ⟨0, 0⟩⟩ :=
  ⟨by decide, by decide,
    ((C9_set_spec ⟨[[some (.Occupied 1 'B')]], [⟨0, 0⟩, ⟨0, 0⟩], [.North, .South]⟩ ⟨0, 0⟩ 0 'Z').2.2
      (.Occupied 1 'B') (by decide) (by decide)).1⟩

/-- C9 counterexample: the cell `(0,0)` is already occupied, yet `set`
succeeds and changes the board — the claim says placement succeeds only on
currently-empty cells and otherwise fails or leaves the board unchanged. -/
theorem C9_set_counterexample :
    (⟨[[some (.Occupied 1 'B')]], [⟨0, 0⟩, ⟨0, 0⟩], [.North, .South]⟩ : Board).get ⟨0, 0⟩ =
        .ok (.Occupied 1 'B') ∧
      ((⟨[[some (.Occupied 1 'B')]], [⟨0, 0⟩, ⟨0, 0⟩], [.North, .South]⟩ : Board).set
          ⟨0, 0⟩ 0 'Z').1 = .ok ⟨.Occupied 0 'Z', ⟨0, 0⟩⟩ ∧
      ((⟨[[some (.Occupied 1 'B')]], [⟨0, 0⟩, ⟨0, 0⟩], [.North, .South]⟩ : Board).set
          ⟨0, 0⟩ 0 'Z').2 ≠ ⟨[[some (.Occupied 1 'B')]], [⟨0, 0⟩, ⟨0, 0⟩], [.North, .South]⟩ := by
  decide

/-- C10: `clear` is total and never signals an error: on out-of-range,
void or empty cells it returns `none` and leaves the board unchanged; on
an occupied cell it returns the prior detail and empties exactly that
cell. -/
theorem C10_clear_spec (b : Board) (pos : Coordinate) :
    ((∀ p ch, b.get pos ≠ .ok (.Occupied p ch)) → b.clear pos = (none, b)) ∧
      ∀ p ch, b.get pos = .ok (.Occupied p ch) →
        (b.clear pos).1 = some ⟨.Occupied p ch, pos⟩ ∧
          (b.clear pos).2.get pos = .ok .Empty ∧
          (∀ d, d ≠ pos → (b.clear pos).2.get d = b.get d) ∧
          (b.clear pos).2.roots = b.roots ∧
          (b.clear pos).2.orientations = b.orientations := by
  refine ⟨clear_of_not_occ, ?_⟩
  intro p ch hget
  obtain ⟨row, hy, hx, heq⟩ := clear_of_occ hget
  exact ⟨by rw [heq], clear_get_self hget, fun d hd => clear_get_ne hd,
    clear_roots b pos, clear_orientations b pos⟩

/-- Witness for C10 at a concrete occupied cell and a concrete void cell. -/
theorem C10_clear_spec_witness :
    ((⟨[[none, some (.Occupied 0 'A')]], [⟨1, 0⟩], [.North]⟩ : Board).clear ⟨0, 0⟩ =
        (none, ⟨[[none, some (.Occupied 0 'A')]], [⟨1, 0⟩], [.North]⟩)) ∧
      ((⟨[[none, some (.Occupied 0 'A')]], [⟨1, 0⟩], [.North]⟩ : Board).clear ⟨1, 0⟩).1 =
        some ⟨.Occupied 0 'A', ⟨1, 0⟩⟩ ∧
      ((⟨[[none, some (.Occupied 0 'A')]], [⟨1, 0⟩], [.North]⟩ : Board).clear ⟨1, 0⟩).2.get ⟨1, 0⟩ =
        .ok .Empty :=
  ⟨(C10_clear_spec ⟨[[none, some (.Occupied 0 'A')]], [⟨1, 0⟩], [.North]⟩ ⟨0, 0⟩).1
      (by intro p ch h; simp [Board.get] at h),
    ((C10_clear_spec ⟨[[none, some (.Occupied 0 'A')]], [⟨1, 0⟩], [.North]⟩ ⟨1, 0⟩).2 0 'A'
      (by decide)).1,
    (((C10_clear_spec ⟨[[none, some (.Occupied 0 'A')]], [⟨1, 0⟩], [.North]⟩ ⟨1, 0⟩).2 0 'A'
      (by decide)).2).1⟩

/-- Widening of one row in `Board::grow`: a void cell inserted at the
front and pushed at the back. -/
def growRow (row : List (Option Square)) : List (Option Square) :=
  none :: (row ++ [none])

/-- `Board::grow`: adds a void ring around the board — every row widened,
then a void row inserted on top and pushed on the bottom (their width read
from the already-widened row zero) — and shifts all roots by `(+1, +1)`. -/
def Board.grow (b : Board) : Board :=
  { squares := List.replicate ((b.squares.map growRow).headD []).length none ::
      (b.squares.map growRow ++
        [List.replicate ((b.squares.map growRow).headD []).length none]),
    roots := b.roots.map (fun c => ⟨c.x + 1, c.y + 1⟩),
    orientations := b.orientations }

/-- The number of leading all-void rows (`trim_top` in `Board::trim`);
zero when no row holds a cell. -/
def trimTop (b : Board) : Nat :=
  (b.squares.findIdx? (fun row => row.any (fun s => s.isSome))).getD 0

/-- The number of trailing all-void rows (`trim_bottom`). -/
def trimBottom (b : Board) : Nat :=
  (b.squares.reverse.findIdx? (fun row => row.any (fun s => s.isSome))).getD 0

/-- The number of leading all-void columns (`trim_left`).  Rust indexes
`row[i]` and would panic on a short row; in range the `Option` lookup
below is identical. -/
def trimLeft (b : Board) : Nat :=
  ((List.range b.width).findIdx?
    (fun i => b.squares.any (fun row => (row[i]?.getD none).isSome))).getD 0

/-- The number of trailing all-void columns (`trim_right`). -/
def trimRight (b : Board) : Nat :=
  ((List.range b.width).reverse.findIdx?
    (fun i => b.squares.any (fun row => (row[i]?.getD none).isSome))).getD 0

/-- `Board::trim`: drops the counted border rows and columns and clamps
every root by the trimmed amounts (saturating at zero). -/
def Board.trim (b : Board) : Board :=
  { squares := ((b.squares.drop (trimTop b)).take
        ((b.squares.drop (trimTop b)).length - trimBottom b)).map
      (fun row => (row.drop (trimLeft b)).take ((row.drop (trimLeft b)).length - trimRight b)),
    roots := b.roots.map (fun c => ⟨c.x - trimLeft b, c.y - trimTop b⟩),
    orientations := b.orientations }

lemma findIdxq_cons_cons {α : Type} (p : α → Bool) (a b : α) (l : List α)
    (ha : p a = false) (hb : p b = true) : List.findIdx? p (a :: b :: l) = some 1 := by
  rw [List.findIdx?_cons, ha]
  simp only [Bool.false_eq_true, if_false]
  rw [List.findIdx?_cons, hb]
  simp

lemma any_isSome_replicate (n : Nat) :
    (List.replicate n (none : Option Square)).any (fun s => s.isSome) = false := by
  rw [List.any_eq_false]
  intro x hx
  rw [List.eq_of_mem_replicate hx]
  simp

lemma any_isSome_growRow (r : List (Option Square)) :
    (growRow r).any (fun s => s.isSome) = r.any (fun s => s.isSome) := by
  simp [growRow]

lemma growRow_drop_take (r : List (Option Square)) :
    ((growRow r).drop 1).take (((growRow r).drop 1).length - 1) = r := by
  simp [growRow]

lemma map_growRow_trim (l : List (List (Option Square))) :
    (l.map growRow).map (fun row => (row.drop 1).take ((row.drop 1).length - 1)) = l := by
  induction l with
  | nil => rfl
  | cons a t ih =>
    simp only [List.map_cons, growRow_drop_take, ih]

lemma roots_shift_unshift (l : List Coordinate) :
    (l.map (fun c => (⟨c.x + 1, c.y + 1⟩ : Coordinate))).map
      (fun c => (⟨c.x - 1, c.y - 1⟩ : Coordinate)) = l := by
  induction l with
  | nil => rfl
  | cons a t ih => simp [ih]

lemma getElemq_growRow_succ (r : List (Option Square)) (i : Nat) :
    (growRow r)[i + 1]? = (r ++ [none])[i]? := by
  unfold growRow
  exact List.getElem?_cons_succ

lemma getDnone_replicate (n i : Nat) :
    ((List.replicate n (none : Option Square))[i]?.getD none) = none := by
  rw [List.getElem?_replicate]
  by_cases h : i < n <;> simp [h]

/-- C7 counterexample: a rectangular board with valid roots whose top row
is all void; `grow` then `trim` removes that original border row as well,
so the original board is not restored. -/
theorem C7_grow_trim_counterexample :
    ((⟨[[none, none], [some .Empty, some .Empty]], [⟨0, 1⟩], [.South]⟩ : Board).grow).trim ≠
      ⟨[[none, none], [some .Empty, some .Empty]], [⟨0, 1⟩], [.South]⟩ := by
  decide

/-- C7 (amended): for every rectangular board whose four border rows and
columns each contain at least one non-void cell, `trim` after `grow`
restores the original grid content and root coordinates. -/
theorem C7_grow_trim_spec (b : Board) (hrect : Rectangular b) (hne : b.squares ≠ [])
    (htop : (b.squares.headD []).any (fun s => s.isSome) = true)
    (hbot : (b.squares.getLastD []).any (fun s => s.isSome) = true)
    (hleft : b.squares.any (fun row => (row[0]?.getD none).isSome) = true)
    (hright : b.squares.any (fun row => (row[b.width - 1]?.getD none).isSome) = true) :
    b.grow.trim = b := by
  obtain ⟨sqs, rts, ors⟩ := b
  dsimp only [Board.width] at hrect hne htop hbot hleft hright
  obtain ⟨r0, rest, hsq⟩ := List.exists_cons_of_ne_nil hne
  subst hsq
  obtain ⟨init, rlast, hconcat⟩ : ∃ init rlast, r0 :: rest = init ++ [rlast] := by
    rcases List.eq_nil_or_concat (r0 :: rest) with h2 | ⟨init, a, h2⟩
    · exact absurd h2 hne
    · exact ⟨init, a, by simpa using h2⟩
  set W := r0.length with hWdef
  set rep : List (Option Square) := List.replicate (W + 2) none with hrep
  have hheadlen : (((r0 :: rest).map growRow).headD []).length = W + 2 := by
    simp [growRow]
  have hg : Board.grow ⟨r0 :: rest, rts, ors⟩ =
      ⟨rep :: ((r0 :: rest).map growRow ++ [rep]),
        rts.map (fun c => ⟨c.x + 1, c.y + 1⟩), ors⟩ := by
    unfold Board.grow
    rw [hheadlen]
  have hgw : (Board.grow ⟨r0 :: rest, rts, ors⟩).width = W + 2 := by
    rw [hg]
    simp [Board.width, hrep]
  have hrectW : ∀ r ∈ r0 :: rest, r.length = W := by
    intro r hr
    exact hrect r hr
  have htopr : r0.any (fun s => s.isSome) = true := by
    simpa using htop
  have hbotr : rlast.any (fun s => s.isSome) = true := by
    rw [hconcat, List.getLastD_concat] at hbot
    exact hbot
  -- the four border scans each stop at index 1
  have htt : trimTop (Board.grow ⟨r0 :: rest, rts, ors⟩) = 1 := by
    unfold trimTop
    rw [hg]
    show ((rep :: ((r0 :: rest).map growRow ++ [rep])).findIdx?
      (fun row => row.any (fun s => s.isSome))).getD 0 = 1
    rw [List.map_cons, List.cons_append,
      findIdxq_cons_cons (fun row => row.any (fun s => s.isSome)) rep (growRow r0) _
        (any_isSome_replicate (W + 2)) (by simpa [any_isSome_growRow] using htopr)]
    rfl
  have htb : trimBottom (Board.grow ⟨r0 :: rest, rts, ors⟩) = 1 := by
    unfold trimBottom
    rw [hg]
    show (((rep :: ((r0 :: rest).map growRow ++ [rep])).reverse).findIdx?
      (fun row => row.any (fun s => s.isSome))).getD 0 = 1
    have hrev : (rep :: ((r0 :: rest).map growRow ++ [rep])).reverse =
        rep :: growRow rlast :: ((init.map growRow).reverse ++ [rep]) := by
      rw [hconcat]
      simp
    rw [hrev, findIdxq_cons_cons (fun row => row.any (fun s => s.isSome)) rep (growRow rlast) _
      (any_isSome_replicate (W + 2)) (by simpa [any_isSome_growRow] using hbotr)]
    rfl
  have htl : trimLeft (Board.grow ⟨r0 :: rest, rts, ors⟩) = 1 := by
    unfold trimLeft
    rw [hgw, hg]
    show ((List.range (W + 2)).findIdx? (fun i =>
      (rep :: ((r0 :: rest).map growRow ++ [rep])).any
        (fun row => (row[i]?.getD none).isSome))).getD 0 = 1
    have hq0 : ((rep :: ((r0 :: rest).map growRow ++ [rep])).any
        (fun row => (row[0]?.getD none).isSome)) = false := by
      rw [List.any_eq_false]
      intro row hrow
      rcases List.mem_cons.mp hrow with rfl | hrow
      · rw [getDnone_replicate]
        simp
      · rcases List.mem_append.mp hrow with hrow | hrow
        · obtain ⟨r, _, rfl⟩ := List.mem_map.mp hrow
          simp [growRow]
        · rw [List.mem_singleton.mp hrow, getDnone_replicate]
          simp
    have hq1 : ((rep :: ((r0 :: rest).map growRow ++ [rep])).any
        (fun row => (row[1]?.getD none).isSome)) = true := by
      rw [List.any_eq_true] at hleft ⊢
      obtain ⟨rw0, hrw0, hsome⟩ := hleft
      refine ⟨growRow rw0,
        List.mem_cons_of_mem _ (List.mem_append_left _ (List.mem_map_of_mem _ hrw0)), ?_⟩
      have hlt : 0 < rw0.length := by
        by_contra hlen
        rw [List.getElem?_eq_none_iff.mpr (Nat.le_of_not_lt hlen)] at hsome
        simp at hsome
      have hx : (growRow rw0)[1]? = rw0[0]? := by
        rw [getElemq_growRow_succ]
        exact List.getElem?_append_left hlt
      rw [hx]
      exact hsome
    have hrange : List.range (W + 2) = 0 :: 1 :: ((List.range W).map (· + 1)).map (· + 1) := by
      rw [List.range_succ_eq_map, List.range_succ_eq_map]
      simp
    rw [hrange, findIdxq_cons_cons (fun i =>
      (rep :: ((r0 :: rest).map growRow ++ [rep])).any
        (fun row => (row[i]?.getD none).isSome)) 0 1 _ hq0 hq1]
    rfl
  have hWpos : 1 ≤ W := by
    rw [List.any_eq_true] at hleft
    obtain ⟨rw0, hrw0, hsome⟩ := hleft
    have hlt : 0 < rw0.length := by
      by_contra hlen
      rw [List.getElem?_eq_none_iff.mpr (Nat.le_of_not_lt hlen)] at hsome
      simp at hsome
    rw [hrectW rw0 hrw0] at hlt
    exact hlt
  have htr : trimRight (Board.grow ⟨r0 :: rest, rts, ors⟩) = 1 := by
    unfold trimRight
    rw [hgw, hg]
    show (((List.range (W + 2)).reverse).findIdx? (fun i =>
      (rep :: ((r0 :: rest).map growRow ++ [rep])).any
        (fun row => (row[i]?.getD none).isSome))).getD 0 = 1
    have hqtop : ((rep :: ((r0 :: rest).map growRow ++ [rep])).any
        (fun row => (row[W + 1]?.getD none).isSome)) = false := by
      rw [List.any_eq_false]
      intro row hrow
      rcases List.mem_cons.mp hrow with rfl | hrow
      · rw [getDnone_replicate]
        simp
      · rcases List.mem_append.mp hrow with hrow | hrow
        · obtain ⟨r, hr, rfl⟩ := List.mem_map.mp hrow
          have hx : (growRow r)[W + 1]? = some none := by
            rw [getElemq_growRow_succ, ← hrectW r hr]
            exact List.getElem?_concat_length r none
          rw [hx]
          simp
        · rw [List.mem_singleton.mp hrow, getDnone_replicate]
          simp
    have hqW : ((rep :: ((r0 :: rest).map growRow ++ [rep])).any
        (fun row => (row[W]?.getD none).isSome)) = true := by
      rw [List.any_eq_true] at hright ⊢
      obtain ⟨rw0, hrw0, hsome⟩ := hright
      refine ⟨growRow rw0,
        List.mem_cons_of_mem _ (List.mem_append_left _ (List.mem_map_of_mem _ hrw0)), ?_⟩
      have hWsucc : W - 1 + 1 = W := Nat.succ_pred_eq_of_pos hWpos
      have hx : (growRow rw0)[W]? = rw0[W - 1]? := by
        rw [← hWsucc, getElemq_growRow_succ]
        refine List.getElem?_append_left ?_
        rw [hrectW rw0 hrw0, ← hWsucc]
        exact Nat.sub_lt (Nat.lt_of_lt_of_le Nat.zero_lt_one (by simp)) Nat.zero_lt_one
      rw [hx]
      exact hsome
    have hrange : (List.range (W + 2)).reverse = (W + 1) :: W :: (List.range W).reverse := by
      rw [List.range_succ, List.range_succ]
      simp
    rw [hrange, findIdxq_cons_cons (fun i =>
      (rep :: ((r0 :: rest).map growRow ++ [rep])).any
        (fun row => (row[i]?.getD none).isSome)) (W + 1) W _ hqtop hqW]
    rfl
  unfold Board.trim
  rw [htt, htb, htl, htr, hg]
  have hdrop : (rep :: ((r0 :: rest).map growRow ++ [rep])).drop 1 =
      (r0 :: rest).map growRow ++ [rep] := rfl
  have htake : ((r0 :: rest).map growRow ++ [rep]).take
      (((r0 :: rest).map growRow ++ [rep]).length - 1) = (r0 :: rest).map growRow := by
    have hlen : ((r0 :: rest).map growRow ++ [rep]).length =
        ((r0 :: rest).map growRow).length + 1 := by simp
    rw [hlen, Nat.add_sub_cancel]
    exact List.take_left ((r0 :: rest).map growRow) [rep]
  simp only [hdrop, htake, map_growRow_trim, roots_shift_unshift]

/-- Witness for C7 at a concrete board whose borders hold cells. -/
theorem C7_grow_trim_spec_witness :
    Rectangular ⟨[[some .Empty]], [⟨0, 0⟩], [.South]⟩ ∧
      ([[some .Empty]] : List (List (Option Square))) ≠ [] ∧
      (([[some .Empty]] : List (List (Option Square))).headD []).any (fun s => s.isSome) = true ∧
      (([[some .Empty]] : List (List (Option Square))).getLastD []).any (fun s => s.isSome) = true ∧
      ([[some .Empty]] : List (List (Option Square))).any
        (fun row => (row[0]?.getD none).isSome) = true ∧
      ((⟨[[some .Empty]], [⟨0, 0⟩], [.South]⟩ : Board).grow).trim =
        ⟨[[some .Empty]], [⟨0, 0⟩], [.South]⟩ :=
  ⟨by decide, by decide, by decide, by decide, by decide,
    C7_grow_trim_spec ⟨[[some .Empty]], [⟨0, 0⟩], [.South]⟩ (by decide) (by decide) (by decide)
      (by decide) (by decide) (by decide)⟩

/-- The per-square conversion inside `Board::word_strings`: an occupied
cell contributes its letter, an empty cell records `EmptySquareInWord`, a
`get` failure records that error; non-occupied cells contribute the
placeholder underscore letter.  The recorded error state is threaded
through, later records overwriting earlier ones exactly as the captured
`err` variable in the Rust closure. -/
def wsChar (b : Board) (st : Option GamePlayError) (c : Coordinate) :
    Option GamePlayError × Char :=
  match b.get c with
  | .ok .Empty => (some .EmptySquareInWord, '_')
  | .ok (.Occupied _ letter) => (st, letter)
  | .error e => (some e, '_')

/-- One word mapped to its letters, threading the error state. -/
def wsWord (b : Board) : List Coordinate → Option GamePlayError →
    Option GamePlayError × List Char
  | [], st => (st, [])
  | c :: cs, st =>
    ((wsWord b cs (wsChar b st c).1).1, (wsChar b st c).2 :: (wsWord b cs (wsChar b st c).1).2)

/-- All words mapped to letter lists, threading the error state. -/
def wsWords (b : Board) : List (List Coordinate) → Option GamePlayError →
    Option GamePlayError × List (List Char)
  | [], st => (st, [])
  | w :: ws, st =>
    ((wsWords b ws (wsWord b w st).1).1, (wsWord b w st).2 :: (wsWords b ws (wsWord b w st).1).2)

/-- `Board::word_strings`: converts coordinate words to letter strings
(modelled as `List Char`); when any error was recorded during the mapping
the last recorded error is returned instead of the strings. -/
def Board.word_strings (b : Board) (coordinates : List (List Coordinate)) :
    Except GamePlayError (List (List Char)) :=
  match wsWords b coordinates none with
  | (some e, _) => .error e
  | (none, strings) => .ok strings

lemma wsWord_all_occ {b : Board} {w : List Coordinate} (st : Option GamePlayError)
    (h : ∀ c ∈ w, isOcc b c = true) : wsWord b w st = (st, w.map (letterAtD b)) := by
  induction w generalizing st with
  | nil => rfl
  | cons c cs ih =>
    have hc : isOcc b c = true := h c (List.mem_cons_self c cs)
    obtain ⟨p, ch, hget⟩ : ∃ p ch, b.get c = .ok (.Occupied p ch) := by
      unfold isOcc at hc
      split at hc
      next p0 ch0 h0 => exact ⟨p0, ch0, h0⟩
      next => cases hc
    have hchar : wsChar b st c = (st, ch) := by
      unfold wsChar
      rw [hget]
    unfold wsWord
    rw [hchar, ih st (fun c0 hc0 => h c0 (List.mem_cons_of_mem c hc0))]
    simp [letterAtD, hget]

lemma wsWords_all_occ {b : Board} {ws : List (List Coordinate)} (st : Option GamePlayError)
    (h : ∀ w ∈ ws, ∀ c ∈ w, isOcc b c = true) :
    wsWords b ws st = (st, ws.map (fun w => w.map (letterAtD b))) := by
  induction ws generalizing st with
  | nil => rfl
  | cons w ws ih =>
    unfold wsWords
    rw [wsWord_all_occ st (h w (List.mem_cons_self w ws)),
      ih st (fun w0 hw0 => h w0 (List.mem_cons_of_mem w hw0))]
    simp

lemma wsChar_isSome {b : Board} {st : Option GamePlayError} {c : Coordinate}
    (h : st.isSome) : (wsChar b st c).1.isSome := by
  unfold wsChar
  split
  · simp
  · exact h
  · simp

lemma wsChar_offender {b : Board} (st : Option GamePlayError) {c : Coordinate}
    (h : isOcc b c = false) : (wsChar b st c).1.isSome := by
  unfold wsChar
  split
  next => simp
  next p ch hget => rw [isOcc, hget] at h; cases h
  next => simp

lemma wsWord_isSome {b : Board} {w : List Coordinate} {st : Option GamePlayError}
    (h : st.isSome) : (wsWord b w st).1.isSome := by
  induction w generalizing st with
  | nil => exact h
  | cons c cs ih => exact ih (wsChar_isSome h)

lemma wsWord_offender {b : Board} : ∀ (w : List Coordinate) (st : Option GamePlayError)
    {c : Coordinate}, c ∈ w → isOcc b c = false → (wsWord b w st).1.isSome
  | [], _, _, hc, _ => absurd hc (List.not_mem_nil _)
  | c0 :: cs, st, c, hc, h => by
    rcases List.mem_cons.mp hc with rfl | hc0
    · exact @wsWord_isSome b cs (wsChar b st c).1 (wsChar_offender st h)
    · exact wsWord_offender cs (wsChar b st c0).1 hc0 h

lemma wsWords_isSome {b : Board} {ws : List (List Coordinate)} {st : Option GamePlayError}
    (h : st.isSome) : (wsWords b ws st).1.isSome := by
  induction ws generalizing st with
  | nil => exact h
  | cons w ws ih => exact ih (wsWord_isSome h)

lemma wsWords_offender {b : Board} : ∀ (ws : List (List Coordinate)) (st : Option GamePlayError)
    {w : List Coordinate} {c : Coordinate}, w ∈ ws → c ∈ w → isOcc b c = false →
      (wsWords b ws st).1.isSome
  | [], _, _, _, hw, _, _ => absurd hw (List.not_mem_nil _)
  | w0 :: wss, st, w, c, hw, hc, h => by
    rcases List.mem_cons.mp hw with rfl | hw0
    · exact @wsWords_isSome b wss (wsWord b w st).1 (wsWord_offender w st hc h)
    · exact wsWords_offender wss (wsWord b w0 st).1 hw0 hc h

/-- The error `word_strings` records for one scanned coordinate:
`EmptySquareInWord` for an empty cell, the `get` position error for an
out-of-range or void cell, nothing for an occupied cell. -/
def wsErr (b : Board) (c : Coordinate) : Option GamePlayError :=
  match b.get c with
  | .ok .Empty => some .EmptySquareInWord
  | .ok (.Occupied _ _) => none
  | .error e => some e

/-- How the recorded error state evolves over one coordinate: a newly
recorded error overwrites the previous one, an occupied cell keeps it. -/
def errUpd (b : Board) (st : Option GamePlayError) (c : Coordinate) : Option GamePlayError :=
  match wsErr b c with
  | some e => some e
  | none => st

lemma wsChar_fst (b : Board) (st : Option GamePlayError) (c : Coordinate) :
    (wsChar b st c).1 = errUpd b st c := by
  cases hg : b.get c with
  | ok sq => cases sq <;> simp [wsChar, errUpd, wsErr, hg]
  | error e => simp [wsChar, errUpd, wsErr, hg]

lemma wsWord_fst (b : Board) : ∀ (w : List Coordinate) (st : Option GamePlayError),
    (wsWord b w st).1 = w.foldl (errUpd b) st := by
  intro w
  induction w with
  | nil => intro st; rfl
  | cons c cs ih =>
    intro st
    show (wsWord b cs (wsChar b st c).1).1 = (c :: cs).foldl (errUpd b) st
    rw [ih, wsChar_fst, List.foldl_cons]

lemma wsWords_fst (b : Board) : ∀ (ws : List (List Coordinate)) (st : Option GamePlayError),
    (wsWords b ws st).1 = ws.flatten.foldl (errUpd b) st := by
  intro ws
  induction ws with
  | nil => intro st; rfl
  | cons w wss ih =>
    intro st
    show (wsWords b wss (wsWord b w st).1).1 = (w :: wss).flatten.foldl (errUpd b) st
    rw [ih, wsWord_fst, show (w :: wss).flatten = w ++ wss.flatten from rfl,
      List.foldl_append]

lemma foldl_errUpd_eq_none {b : Board} : ∀ (cs : List Coordinate) (st : Option GamePlayError),
    cs.foldl (errUpd b) st = none → st = none ∧ ∀ c ∈ cs, wsErr b c = none := by
  intro cs
  induction cs with
  | nil => exact fun st h => ⟨h, fun c hc => absurd hc (List.not_mem_nil c)⟩
  | cons c cs ih =>
    intro st h
    rw [List.foldl_cons] at h
    obtain ⟨hupd, hall⟩ := ih (errUpd b st c) h
    have hc : wsErr b c = none ∧ st = none := by
      unfold errUpd at hupd
      split at hupd
      next e he => cases hupd
      next he => exact ⟨he, hupd⟩
    refine ⟨hc.2, fun c0 hc0 => ?_⟩
    rcases List.mem_cons.mp hc0 with rfl | hc0
    · exact hc.1
    · exact hall c0 hc0

lemma wsErr_none_iff {b : Board} {c : Coordinate} :
    wsErr b c = none ↔ isOcc b c = true := by
  unfold wsErr isOcc
  cases hg : b.get c with
  | ok sq => cases sq <;> simp
  | error e => simp

/-- C8 (amended): `word_strings` scans the coordinates in order (words in
order, each word left to right), recording an error for every coordinate
that resolves to a non-occupied cell — `EmptySquareInWord` for an empty
cell, the corresponding position error (`OutSideBoardDimensions` /
`InvalidPosition`) for an out-of-range or void cell — each record
overwriting the previous; if any error was recorded the call fails with
the last recorded error, and otherwise it returns the letter strings
obtained by reading the occupied cell at each coordinate in order. -/
theorem C8_word_strings_spec (b : Board) (ws : List (List Coordinate)) :
    (b.word_strings ws =
        match ws.flatten.foldl (errUpd b) none with
        | some e => .error e
        | none => .ok (ws.map (fun w => w.map (letterAtD b)))) ∧
      ((∀ w ∈ ws, ∀ c ∈ w, isOcc b c = true) →
        b.word_strings ws = .ok (ws.map (fun w => w.map (letterAtD b)))) ∧
      ∀ w ∈ ws, ∀ c ∈ w, isOcc b c = false → ∃ e, b.word_strings ws = .error e := by
  refine ⟨?_, ?_, ?_⟩
  · cases hlast : ws.flatten.foldl (errUpd b) none with
    | some e =>
      have h1 : (wsWords b ws none).1 = some e := by rw [wsWords_fst]; exact hlast
      unfold Board.word_strings
      rw [show wsWords b ws none = (some e, (wsWords b ws none).2) from by rw [← h1]]
    | none =>
      have hAll : ∀ w ∈ ws, ∀ c ∈ w, isOcc b c = true := by
        intro w hw c hc
        exact wsErr_none_iff.mp
          ((foldl_errUpd_eq_none ws.flatten none hlast).2 c (List.mem_flatten.mpr ⟨w, hw, hc⟩))
      unfold Board.word_strings
      rw [wsWords_all_occ none hAll]
  · intro h
    unfold Board.word_strings
    rw [wsWords_all_occ none h]
  · intro w hw c hc hocc
    have hsome := wsWords_offender ws none hw hc hocc
    unfold Board.word_strings
    obtain ⟨e, he⟩ := Option.isSome_iff_exists.mp hsome
    rw [show wsWords b ws none = (some e, (wsWords b ws none).2) from by rw [← he]]
    exact ⟨e, rfl⟩

/-- Witness for C8: an all-occupied word returns its letters, and on a
word containing an out-of-range coordinate followed by an empty cell the
last recorded error (`EmptySquareInWord`) wins. -/
theorem C8_word_strings_spec_witness :
    (∀ w ∈ [[(⟨0, 0⟩ : Coordinate), ⟨1, 0⟩]], ∀ c ∈ w,
        isOcc ⟨[[some (.Occupied 0 'H'), some (.Occupied 0 'I')]], [⟨0, 0⟩], [.South]⟩ c = true) ∧
      (⟨[[some (.Occupied 0 'H'), some (.Occupied 0 'I')]], [⟨0, 0⟩], [.South]⟩ : Board).word_strings
          [[⟨0, 0⟩, ⟨1, 0⟩]] =
        .ok ([[⟨0, 0⟩, ⟨1, 0⟩]].map (fun w => w.map
          (letterAtD ⟨[[some (.Occupied 0 'H'), some (.Occupied 0 'I')]], [⟨0, 0⟩], [.South]⟩))) ∧
      (⟨[[some .Empty]], [⟨0, 0⟩], [.South]⟩ : Board).word_strings [[⟨5, 5⟩, ⟨0, 0⟩]] =
        .error .EmptySquareInWord :=
  ⟨by decide,
    (C8_word_strings_spec ⟨[[some (.Occupied 0 'H'), some (.Occupied 0 'I')]], [⟨0, 0⟩], [.South]⟩
      [[⟨0, 0⟩, ⟨1, 0⟩]]).2.1 (by decide),
    by
      have h := (C8_word_strings_spec ⟨[[some .Empty]], [⟨0, 0⟩], [.South]⟩ [[⟨5, 5⟩, ⟨0, 0⟩]]).1
      rw [h]
      decide⟩

/-- C8 counterexample: an out-of-range coordinate makes `word_strings`
fail with `OutSideBoardDimensions`, not `EmptySquareInWord` as the claim
states for out-of-range cells. -/
theorem C8_word_strings_counterexample :
    (⟨[[some .Empty]], [⟨0, 0⟩], [.South]⟩ : Board).word_strings [[⟨5, 5⟩]] =
        .error (.OutSideBoardDimensions ⟨5, 5⟩) ∧
      GamePlayError.OutSideBoardDimensions ⟨5, 5⟩ ≠ .EmptySquareInWord := by
  decide

/-- One direction of the word walk in `Board::get_words`: steps while the
cells hold the owner's tiles, pushing onto the end for the forward
directions (South/East) and inserting at the front otherwise.  The Rust
`while` loop is unbounded; `fuel` models it and `none` marks a walk that
never finishes — which really happens when the walk reaches the clamped
north/west edge, where `Coordinate::add` returns its argument unchanged. -/
def wordWalk (b : Board) (owner : Nat) (direction : Direction) :
    Nat → Coordinate → List Coordinate → Option (List Coordinate)
  | 0, _, _ => none
  | fuel + 1, location, word =>
    match b.get location with
    | .ok (.Occupied player _) =>
      if player ≠ owner then some word
      else
        wordWalk b owner direction fuel (location.add direction)
          (if direction = .South ∨ direction = .East then word ++ [location]
            else location :: word)
    | _ => some word

/-- The length filter ending `get_words`: one-letter words are dropped
unless every word has length one. -/
def lenOneFilter (words : List (List Coordinate)) : List (List Coordinate) :=
  if words.all (fun w => w.length == 1) then words
  else words.filter (fun w => decide (w.length > 1))

/-- `Board::get_words` with fuel for the two unbounded axis walks: builds
the vertical word (South then North from the position) and the horizontal
word (East then West), reverses each unless the owner's orientation reads
it forward, and applies the length filter.  `none` models a diverging walk
or the panicking orientation lookup `self.orientations[owner]`. -/
def get_wordsN (b : Board) (fuel : Nat) (position : Coordinate) :
    Option (List (List Coordinate)) :=
  match b.get position with
  | .ok (.Occupied owner _) =>
    (wordWalk b owner .South fuel (position.add .South) [position]).bind (fun vs =>
      (wordWalk b owner .North fuel (position.add .North) vs).bind (fun vword =>
        (wordWalk b owner .East fuel (position.add .East) [position]).bind (fun hs =>
          (wordWalk b owner .West fuel (position.add .West) hs).bind (fun hword =>
            (b.orientations[owner]?).bind (fun orientation =>
              some (lenOneFilter
                [if orientation.read_top_to_bottom then vword else vword.reverse,
                  if orientation.read_left_to_right then hword else hword.reverse]))))))
  | _ => some []

/-- A walk pointed at a fixed point of `Coordinate::add` (the clamped
north/west edge) over a cell the owner occupies never terminates, whatever
the fuel. -/
lemma wordWalk_fix_diverges {b : Board} {owner : Nat} {direction : Direction}
    {loc : Coordinate} (hfix : loc.add direction = loc)
    (hocc : ∃ ch, b.get loc = .ok (.Occupied owner ch)) :
    ∀ fuel word, wordWalk b owner direction fuel loc word = none := by
  intro fuel
  induction fuel with
  | zero => intro word; rfl
  | succ n ih =>
    intro word
    obtain ⟨ch, hget⟩ := hocc
    unfold wordWalk
    simp only [hget, ne_eq, not_true_eq_false, if_false, ite_not, if_true, hfix]
    split <;> exact ih _

/-- C3 (amended): `read_top_to_bottom` holds exactly for South and West,
`read_left_to_right` exactly for South and East; and `get_words` reverses
the vertical word unless the owner's orientation reads top-to-bottom and
the horizontal word unless it reads left-to-right. -/
theorem C3_direction_reading_spec :
    (∀ d : Direction, d.read_top_to_bottom = true ↔ (d = .South ∨ d = .West)) ∧
      (∀ d : Direction, d.read_left_to_right = true ↔ (d = .South ∨ d = .East)) ∧
      ∀ (b : Board) (fuel : Nat) (position : Coordinate) (owner : Nat) (ch : Char)
        (o : Direction) (vs vword hs hword : List Coordinate),
        b.get position = .ok (.Occupied owner ch) →
        wordWalk b owner .South fuel (position.add .South) [position] = some vs →
        wordWalk b owner .North fuel (position.add .North) vs = some vword →
        wordWalk b owner .East fuel (position.add .East) [position] = some hs →
        wordWalk b owner .West fuel (position.add .West) hs = some hword →
        b.orientations[owner]? = some o →
        get_wordsN b fuel position = some (lenOneFilter
          [if o.read_top_to_bottom then vword else vword.reverse,
            if o.read_left_to_right then hword else hword.reverse]) := by
  refine ⟨?_, ?_, ?_⟩
  · intro d
    cases d <;> simp [Direction.read_top_to_bottom]
  · intro d
    cases d <;> simp [Direction.read_left_to_right]
  · intro b fuel position owner ch o vs vword hs hword hget hvs hvword hhs hhword ho
    unfold get_wordsN
    simp only [hget, hvs, hvword, hhs, hhword, ho, Option.some_bind]

/-- Witness for C3 at a concrete board with a North-facing owner, whose
horizontal word comes out reversed. -/
theorem C3_direction_reading_spec_witness :
    (⟨[[none, none, none], [none, some (.Occupied 0 'A'), some (.Occupied 0 'B')]],
        [⟨1, 1⟩], [.North]⟩ : Board).get ⟨1, 1⟩ = .ok (.Occupied 0 'A') ∧
      get_wordsN ⟨[[none, none, none], [none, some (.Occupied 0 'A'), some (.Occupied 0 'B')]],
          [⟨1, 1⟩], [.North]⟩ 3 ⟨1, 1⟩ =
        some (lenOneFilter
          [if Direction.read_top_to_bottom .North then [⟨1, 1⟩] else ([⟨1, 1⟩] : List Coordinate).reverse,
            if Direction.read_left_to_right .North then [⟨1, 1⟩, ⟨2, 1⟩]
              else ([⟨1, 1⟩, ⟨2, 1⟩] : List Coordinate).reverse]) :=
  ⟨by decide,
    C3_direction_reading_spec.2.2
      ⟨[[none, none, none], [none, some (.Occupied 0 'A'), some (.Occupied 0 'B')]],
        [⟨1, 1⟩], [.North]⟩ 3 ⟨1, 1⟩ 0 'A' .North [⟨1, 1⟩] [⟨1, 1⟩] [⟨1, 1⟩, ⟨2, 1⟩]
      [⟨1, 1⟩, ⟨2, 1⟩] (by decide) (by decide) (by decide) (by decide) (by decide) (by decide)⟩

/-- C3 counterexample: `read_top_to_bottom` is true for West and false for
East, so the predicates are not "both true exactly for South and East". -/
theorem C3_direction_reading_counterexample :
    Direction.read_top_to_bottom .West = true ∧
      Direction.read_top_to_bottom .East = false ∧
      ¬(Direction.West = .South ∨ Direction.West = .East) := by
  decide

/-- C5: on the one-cell board whose single cell is occupied, `get_words`
at that cell never returns: the North walk sits on the clamped edge
(`Coordinate::add` maps `(0,0)` to itself going North) and loops
forever.  The claim describes the intended, terminating behaviour — which
the code's own tests also assume — so the code is at fault. -/
theorem C5_get_words_diverges :
    ∀ fuel, get_wordsN ⟨[[some (.Occupied 0 'A')]], [⟨0, 0⟩], [.South]⟩ fuel ⟨0, 0⟩ = none := by
  intro fuel
  have hdiv := @wordWalk_fix_diverges ⟨[[some (.Occupied 0 'A')]], [⟨0, 0⟩], [.South]⟩ 0 .North
    ⟨0, 0⟩ (by decide) ⟨'A', rfl⟩
  cases fuel with
  | zero => rfl
  | succ n =>
    unfold get_wordsN
    simp only [show (⟨[[some (.Occupied 0 'A')]], [⟨0, 0⟩], [.South]⟩ : Board).get ⟨0, 0⟩ =
      .ok (.Occupied 0 'A') from rfl]
    simp only [show wordWalk ⟨[[some (.Occupied 0 'A')]], [⟨0, 0⟩], [.South]⟩ 0 .South (n + 1)
      ((⟨0, 0⟩ : Coordinate).add .South) [⟨0, 0⟩] = some [⟨0, 0⟩] from rfl, Option.some_bind]
    simp only [show ((⟨0, 0⟩ : Coordinate).add .North) = ⟨0, 0⟩ from rfl]
    rw [hdiv (n + 1) [⟨0, 0⟩]]
    rfl

/-- Inner step of the visibility scan in `Board::fog_of_war`: a 2-hop
frontier cell occupied by another player reveals the whole words through
it (`get_words`, so the step inherits the walk's fuel and may diverge). -/
def visInnerStep (b : Board) (fuel : Nat) (player_index : Nat)
    (acc : Option (List Coordinate)) (cs : Coordinate × Square) : Option (List Coordinate) :=
  acc.bind (fun vis2 =>
    match cs.2 with
    | .Occupied q _ =>
      if q ≠ player_index then
        (get_wordsN b fuel cs.1).map (fun ws => vis2 ++ ws.flatten)
      else some vis2
    | .Empty => some vis2)

/-- Outer step of the visibility scan: every cell the viewer occupies
expands to its neighbours-of-neighbours and feeds them to the inner
step. -/
def visStep (b : Board) (fuel : Nat) (player_index : Nat)
    (acc : Option (List Coordinate)) (c : Coordinate) : Option (List Coordinate) :=
  acc.bind (fun vis =>
    match b.get c with
    | .ok (.Occupied p _) =>
      if p = player_index then
        ((b.neighbouring_squares c).flatMap (fun pc => b.neighbouring_squares pc.1)).foldl
          (visInnerStep b fuel player_index) (some vis)
      else some vis
    | _ => some vis)

/-- The visibility set of `Board::fog_of_war` (row-major accumulation). -/
def visibleCoordsN (b : Board) (fuel : Nat) (player_index : Nat) : Option (List Coordinate) :=
  (allCoords b).foldl (visStep b fuel player_index) (some [])

/-- `Board::fog_of_war` with fuel for the word walks: clones the board and
clears every cell occupied by another player that is not in the visibility
set. -/
def fog_of_warN (b : Board) (fuel : Nat) (player_index : Nat) : Option Board :=
  (visibleCoordsN b fuel player_index).map (fun vis =>
    (allCoords b).foldl (fun nb c =>
      if c ∈ vis then nb
      else
        match nb.get c with
        | .ok (.Occupied p _) => if p ≠ player_index then (nb.clear c).2 else nb
        | _ => nb) b)

lemma visInnerStep_none (b : Board) (fuel player_index : Nat) (cs : Coordinate × Square) :
    visInnerStep b fuel player_index none cs = none := rfl

lemma visStep_none (b : Board) (fuel player_index : Nat) (c : Coordinate) :
    visStep b fuel player_index none c = none := rfl

lemma foldl_visInnerStep_none (b : Board) (fuel player_index : Nat)
    (L : List (Coordinate × Square)) :
    L.foldl (visInnerStep b fuel player_index) none = none := by
  induction L with
  | nil => rfl
  | cons a t ih => rw [List.foldl_cons, visInnerStep_none]; exact ih

lemma foldl_visStep_none (b : Board) (fuel player_index : Nat) (L : List Coordinate) :
    L.foldl (visStep b fuel player_index) none = none := by
  induction L with
  | nil => rfl
  | cons a t ih => rw [List.foldl_cons, visStep_none]; exact ih

/-- C4: `fog_of_war` never returns on a board where the viewer touches an
enemy group that runs along the clamped west/north edge: the word walk
inside the visibility scan loops forever (`Coordinate::add` clamps at
zero), so no fuel suffices.  The claim describes the intended, terminating
behaviour — which the code's own fog test also assumes — so the code is at
fault. -/
theorem C4_fog_of_war_diverges :
    ∀ fuel, fog_of_warN ⟨[[some (.Occupied 0 'A'), some (.Occupied 0 'A')],
      [some (.Occupied 1 'B'), some .Empty]], [⟨0, 0⟩, ⟨0, 1⟩], [.North, .South]⟩ fuel 1 = none := by
  intro fuel
  have hgw : get_wordsN ⟨[[some (.Occupied 0 'A'), some (.Occupied 0 'A')],
      [some (.Occupied 1 'B'), some .Empty]], [⟨0, 0⟩, ⟨0, 1⟩], [.North, .South]⟩ fuel ⟨0, 0⟩ =
      none := by
    have hdiv := @wordWalk_fix_diverges ⟨[[some (.Occupied 0 'A'), some (.Occupied 0 'A')],
      [some (.Occupied 1 'B'), some .Empty]], [⟨0, 0⟩, ⟨0, 1⟩], [.North, .South]⟩ 0 .North
      ⟨0, 0⟩ (by decide) ⟨'A', rfl⟩
    cases fuel with
    | zero => rfl
    | succ n =>
      unfold get_wordsN
      simp only [show (⟨[[some (.Occupied 0 'A'), some (.Occupied 0 'A')],
        [some (.Occupied 1 'B'), some .Empty]], [⟨0, 0⟩, ⟨0, 1⟩], [.North, .South]⟩ : Board).get
          ⟨0, 0⟩ = .ok (.Occupied 0 'A') from rfl]
      simp only [show wordWalk ⟨[[some (.Occupied 0 'A'), some (.Occupied 0 'A')],
        [some (.Occupied 1 'B'), some .Empty]], [⟨0, 0⟩, ⟨0, 1⟩], [.North, .South]⟩ 0 .South (n + 1)
          ((⟨0, 0⟩ : Coordinate).add .South) [⟨0, 0⟩] = some [⟨0, 0⟩] from rfl, Option.some_bind]
      simp only [show ((⟨0, 0⟩ : Coordinate).add .North) = ⟨0, 0⟩ from rfl]
      rw [hdiv (n + 1) [⟨0, 0⟩]]
      rfl
  have hvis : visibleCoordsN ⟨[[some (.Occupied 0 'A'), some (.Occupied 0 'A')],
      [some (.Occupied 1 'B'), some .Empty]], [⟨0, 0⟩, ⟨0, 1⟩], [.North, .South]⟩ fuel 1 =
      none := by
    unfold visibleCoordsN
    rw [show allCoords ⟨[[some (.Occupied 0 'A'), some (.Occupied 0 'A')],
      [some (.Occupied 1 'B'), some .Empty]], [⟨0, 0⟩, ⟨0, 1⟩], [.North, .South]⟩ =
        [⟨0, 0⟩, ⟨1, 0⟩, ⟨0, 1⟩, ⟨1, 1⟩] from rfl]
    rw [List.foldl_cons, show visStep ⟨[[some (.Occupied 0 'A'), some (.Occupied 0 'A')],
      [some (.Occupied 1 'B'), some .Empty]], [⟨0, 0⟩, ⟨0, 1⟩], [.North, .South]⟩ fuel 1
        (some []) ⟨0, 0⟩ = some [] from rfl]
    rw [List.foldl_cons, show visStep ⟨[[some (.Occupied 0 'A'), some (.Occupied 0 'A')],
      [some (.Occupied 1 'B'), some .Empty]], [⟨0, 0⟩, ⟨0, 1⟩], [.North, .South]⟩ fuel 1
        (some []) ⟨1, 0⟩ = some [] from rfl]
    rw [List.foldl_cons]
    have h01 : visStep ⟨[[some (.Occupied 0 'A'), some (.Occupied 0 'A')],
        [some (.Occupied 1 'B'), some .Empty]], [⟨0, 0⟩, ⟨0, 1⟩], [.North, .South]⟩ fuel 1
        (some []) ⟨0, 1⟩ = none := by
      show (((⟨[[some (.Occupied 0 'A'), some (.Occupied 0 'A')],
        [some (.Occupied 1 'B'), some .Empty]], [⟨0, 0⟩, ⟨0, 1⟩], [.North, .South]⟩ :
          Board).neighbouring_squares ⟨0, 1⟩).flatMap
          (fun pc => (⟨[[some (.Occupied 0 'A'), some (.Occupied 0 'A')],
            [some (.Occupied 1 'B'), some .Empty]], [⟨0, 0⟩, ⟨0, 1⟩],
            [.North, .South]⟩ : Board).neighbouring_squares pc.1)).foldl
        (visInnerStep ⟨[[some (.Occupied 0 'A'), some (.Occupied 0 'A')],
          [some (.Occupied 1 'B'), some .Empty]], [⟨0, 0⟩, ⟨0, 1⟩], [.North, .South]⟩ fuel 1)
        (some []) = none
      rw [show ((⟨[[some (.Occupied 0 'A'), some (.Occupied 0 'A')],
        [some (.Occupied 1 'B'), some .Empty]], [⟨0, 0⟩, ⟨0, 1⟩], [.North, .South]⟩ :
          Board).neighbouring_squares ⟨0, 1⟩).flatMap
          (fun pc => (⟨[[some (.Occupied 0 'A'), some (.Occupied 0 'A')],
            [some (.Occupied 1 'B'), some .Empty]], [⟨0, 0⟩, ⟨0, 1⟩],
            [.North, .South]⟩ : Board).neighbouring_squares pc.1) =
        [(⟨0, 0⟩, .Occupied 0 'A'), (⟨1, 0⟩, .Occupied 0 'A'), (⟨0, 1⟩, .Occupied 1 'B'),
          (⟨0, 0⟩, .Occupied 0 'A'), (⟨1, 0⟩, .Occupied 0 'A'), (⟨0, 1⟩, .Occupied 1 'B'),
          (⟨0, 0⟩, .Occupied 0 'A'), (⟨1, 1⟩, .Empty), (⟨0, 1⟩, .Occupied 1 'B')] from rfl]
      rw [List.foldl_cons]
      have hfirst : visInnerStep ⟨[[some (.Occupied 0 'A'), some (.Occupied 0 'A')],
          [some (.Occupied 1 'B'), some .Empty]], [⟨0, 0⟩, ⟨0, 1⟩], [.North, .South]⟩ fuel 1
          (some []) (⟨0, 0⟩, .Occupied 0 'A') = none := by
        show (get_wordsN ⟨[[some (.Occupied 0 'A'), some (.Occupied 0 'A')],
          [some (.Occupied 1 'B'), some .Empty]], [⟨0, 0⟩, ⟨0, 1⟩], [.North, .South]⟩ fuel
            ⟨0, 0⟩).map (fun ws => [] ++ ws.flatten) = none
        rw [hgw]
        rfl
      rw [hfirst, foldl_visInnerStep_none]
    rw [h01, foldl_visStep_none]
  unfold fog_of_warN
  rw [hvis]
  rfl

end Truncate
